import Mathlib

/-!
# Verification of the Taskforce_System reconciliation engine

Shallow embedding of the core synchronization code of the repository:

* `src/api/roblox_api.py` — the rate-limited, retrying HTTP client
  (`RobloxAPI._make_request`), the static `RANK_MAPPING` vocabulary and
  `map_roblox_rank_to_system`;
* `src/api/sync_members.py` — `MemberSyncer.sync_all_members` and its helpers
  (`_is_eligible_rank`, `_process_roblox_member`, `_add_new_member`,
  `_update_existing_member`, `_check_inactive_members`);
* `src/utils/roblox_sync.py` — `sync_from_roblox`, `sync_member_to_roblox`,
  `add_member_to_roblox`, `remove_member_from_roblox`, `get_role_id_for_rank`,
  and the module-level `_syncing_from_roblox` re-entrancy flag;
* `src/database/models.py` — the `Member` and `PromotionLog` rows.

Conventions of the embedding:

* timestamps (`datetime.utcnow()`) are abstract `Nat` ticks, passed in as `now`;
* the relational store is a `List Member` in insertion order; SQLAlchemy object
  identity is list position, so lookups return indices and updates use
  `List.set`;
* Python truthiness of nullable string columns (`if not member.roblox_id`) is
  `strTruthy : Option String → Bool` (both `None` and `""` are falsy);
* network effects are abstracted: HTTP responses are an oracle function,
  remote-provider calls are counted in a `GlobalState`;
* per-member `try/except` blocks never fire in the embedding (no exception can
  arise from the embedded operations themselves); run-level failure of
  `sync_from_roblox` is modelled by an injected error in the wrapper that
  carries the re-entrancy flag.
-/

namespace Taskforce

/-- `RobloxMember` dataclass from `src/api/roblox_api.py`. -/
structure RobloxMember where
  user_id : Nat
  username : String
  display_name : String
  role_id : Nat
  role_name : String
  joined_date : String
deriving Repr, DecidableEq

/-- A row of the `members` table (`src/database/models.py`, class `Member`).
`discord_id` and the relationship attributes are omitted: the sync code never
reads or writes them. -/
structure Member where
  id : Nat
  discord_username : String
  roblox_username : Option String
  roblox_id : Option String
  current_rank : String
  join_date : Nat
  last_updated : Nat
  is_active : Bool
deriving Repr, DecidableEq

/-- A row of the `promotion_logs` table (`src/database/models.py`,
class `PromotionLog`); `promotion_date` is omitted (defaulted by the column,
never read by the sync code). -/
structure PromotionLog where
  member_id : Nat
  from_rank : String
  to_rank : String
  reason : String
  promoted_by : String
deriving Repr, DecidableEq

/-- A row of the rank-mapping table (`RankMapping` in `src/database/models.py`)
as consumed by `src/utils/roblox_sync.py`. -/
structure RankMapping where
  system_rank : String
  roblox_role_id : Nat
  roblox_role_name : Option String
  is_active : Bool
deriving Repr, DecidableEq

/-- A role dict returned by `RobloxAPI.get_group_roles`. -/
structure RobloxRole where
  id : Nat
  name : String
deriving Repr, DecidableEq

/-- Python's `str.lower()` (character-wise lowercasing; identical to
`String.toLower`, unfolded to the character list so that concrete instances
reduce in the kernel). -/
def strLower (s : String) : String :=
  ⟨s.data.map Char.toLower⟩

/-- Python truthiness of a nullable string column: `None` and `""` are falsy. -/
def strTruthy : Option String → Bool
  | none => false
  | some s => !(s == "")

/-- Python truthiness of a nullable integer: `None` and `0` are falsy
(`if not role_id:` in `sync_member_to_roblox`). -/
def natOptTruthy : Option Nat → Bool
  | none => false
  | some n => !(n == 0)

/-- The static `RANK_MAPPING` table at the bottom of `src/api/roblox_api.py`
(Roblox role name → system rank name). -/
def RANK_MAPPING : List (String × String) :=
  [("Aspirant", "Aspirant"),
   ("Novice", "Novice"),
   ("Adept", "Adept"),
   ("Crusader", "Crusader"),
   ("Paladin", "Paladin"),
   ("Exemplar", "Exemplar"),
   ("Prospect", "Prospect"),
   ("Commander", "Commander"),
   ("Marshall", "Marshall"),
   ("General", "General"),
   ("Chief General", "Chief General"),
   ("Guest", "Aspirant"),
   ("Member", "Novice")]

/-- `map_roblox_rank_to_system` from `src/api/roblox_api.py`:
`RANK_MAPPING.get(roblox_rank, roblox_rank)`. -/
def mapRobloxRankToSystem (roblox_rank : String) : String :=
  (RANK_MAPPING.lookup roblox_rank).getD roblox_rank

/-- The eligible-rank hierarchy. The identical list literal appears in
`MemberSyncer.__init__` (`self.eligible_ranks`) and inline in
`sync_from_roblox` (`eligible_ranks`). -/
def eligibleRanks : List String :=
  ["Aspirant", "Novice", "Adept", "Crusader", "Paladin",
   "Exemplar", "Prospect", "Commander", "Marshal", "General", "Chief General"]

/-- `MemberSyncer._is_eligible_rank`. -/
def isEligibleRank (rank : String) : Bool :=
  eligibleRanks.contains rank

/-- Statistics dict of `MemberSyncer` (`self.stats`). -/
structure SyncStats where
  total_roblox_members : Nat
  eligible_roblox_members : Nat
  total_db_members : Nat
  members_added : Nat
  members_updated : Nat
  ranks_changed : Nat
  members_skipped : Nat
  errors : Nat
deriving Repr, DecidableEq

/-- Database state: the `members` and `promotion_logs` tables in insertion
order plus the autoincrement counter for the next member primary key. -/
structure DBState where
  members : List Member
  promotions : List PromotionLog
  next_id : Nat
deriving Repr, DecidableEq

/-- Mutable state threaded through one `sync_all_members` pass. -/
structure SyncerState where
  members : List Member
  promotions : List PromotionLog
  next_id : Nat
  stats : SyncStats
deriving Repr, DecidableEq

/-- The lowercased `roblox_username` of a member
(`member.roblox_username.lower()`). -/
def unameLower (m : Member) : String :=
  strLower (m.roblox_username.getD "")

/-- Whether a member occupies key `k` in the `db_by_roblox_username` dict of
`sync_all_members`: it must be in the active-member query result, have a truthy
`roblox_username`, and its lowercased username must equal `k`. -/
def activeUnameMatch (m : Member) (k : String) : Bool :=
  m.is_active && strTruthy m.roblox_username && (unameLower m == k)

/-- Whether the member at index `j` of the table occupies key `k` in the
username dict. -/
def memberMatchAt (members : List Member) (k : String) (j : Nat) : Bool :=
  match members[j]? with
  | some m => activeUnameMatch m k
  | none => false

/-- `db_by_roblox_username[k]` as an index into the members table: the dict
comprehension keeps the last member for a repeated key, so this is the largest
index whose member matches `k`. Returns `none` when the key is absent. -/
def dbUsernameIndex (members : List Member) (k : String) : Option Nat :=
  ((List.range members.length).filter (memberMatchAt members k)).getLast?

/-- Outcome of `MemberSyncer._update_existing_member` on one member: the new
member row, the promotion rows added, whether the rank changed
(`ranks_changed`), and whether the `changes` list was non-empty
(`members_updated`). -/
structure UpdateOutcome where
  member : Member
  promotions : List PromotionLog
  rank_changed : Bool
  changed : Bool
deriving Repr, DecidableEq

/-- `MemberSyncer._update_existing_member`. Each condition reads the member
fields as they were at entry (the Python code mutates distinct attributes, so
each `if` sees the original value). All mutations are guarded by
`if not dry_run`; statistics flags are not. -/
def updateExistingMember (db_member : Member) (rm : RobloxMember)
    (system_rank : String) (dry_run : Bool) (now : Nat) : UpdateOutcome :=
  let rank_diff := !(db_member.current_rank == system_rank)
  let promos : List PromotionLog :=
    if rank_diff && !dry_run then
      [{ member_id := db_member.id
         from_rank := db_member.current_rank
         to_rank := system_rank
         reason := "Automatic sync from Roblox group"
         promoted_by := "Roblox Sync Bot" }]
    else []
  let m1 := if rank_diff && !dry_run then { db_member with current_rank := system_rank } else db_member
  let id_missing := !strTruthy db_member.roblox_id
  let m2 := if id_missing && !dry_run then { m1 with roblox_id := some (toString rm.user_id) } else m1
  let uname_diff := !(db_member.roblox_username == some rm.username)
  let m3 := if uname_diff && !dry_run then { m2 with roblox_username := some rm.username } else m2
  let m4 := if !dry_run then { m3 with last_updated := now } else m3
  { member := m4
    promotions := promos
    rank_changed := rank_diff
    changed := rank_diff || id_missing || uname_diff }

/-- The member row constructed by `MemberSyncer._add_new_member` and by the
new-member branch of `sync_from_roblox` (both build the identical row).
`is_active` is the column default `True`. -/
def newMemberFromRoblox (rm : RobloxMember) (system_rank : String)
    (now : Nat) (id : Nat) : Member :=
  { id := id
    discord_username := rm.username
    roblox_username := some rm.username
    roblox_id := some (toString rm.user_id)
    current_rank := system_rank
    join_date := now
    last_updated := now
    is_active := true }

/-- One iteration of the member loop in `MemberSyncer.sync_all_members`
(eligibility test, then `_process_roblox_member`). `lookup` is the
`db_by_roblox_username` dict, built once before the loop. The
`new_members`/`rank_changes` notification lists are omitted: they affect
neither storage nor statistics. -/
def processRobloxMember (lookup : String → Option Nat) (dry_run : Bool) (now : Nat)
    (st : SyncerState) (rm : RobloxMember) : SyncerState :=
  let system_rank := mapRobloxRankToSystem rm.role_name
  if isEligibleRank system_rank then
    let stats1 := { st.stats with eligible_roblox_members := st.stats.eligible_roblox_members + 1 }
    match lookup (strLower rm.username) with
    | some i =>
      match st.members[i]? with
      | some db_member =>
        let u := updateExistingMember db_member rm system_rank dry_run now
        { members := st.members.set i u.member
          promotions := st.promotions ++ u.promotions
          next_id := st.next_id
          stats := { stats1 with
            ranks_changed := stats1.ranks_changed + (if u.rank_changed then 1 else 0)
            members_updated := stats1.members_updated + (if u.changed then 1 else 0) } }
      | none => { st with stats := stats1 }
    | none =>
      { members :=
          if dry_run then st.members
          else st.members ++ [newMemberFromRoblox rm system_rank now st.next_id]
        promotions := st.promotions
        next_id := if dry_run then st.next_id else st.next_id + 1
        stats := { stats1 with members_added := stats1.members_added + 1 } }
  else
    { st with stats := { st.stats with members_skipped := st.stats.members_skipped + 1 } }

/-- `MemberSyncer._check_inactive_members`: the potentially-inactive members it
prints for manual review. It performs no storage mutation and touches no
statistic. -/
def checkInactiveMembers (roblox_members : List RobloxMember)
    (db_members : List Member) : List Member :=
  db_members.filter (fun m =>
    strTruthy m.roblox_username &&
    !(roblox_members.any (fun rm => strLower rm.username == unameLower m)))

/-- `MemberSyncer.sync_all_members`. The connection test is assumed to
succeed (its failure path touches no storage). If the fetched roster is empty
the run aborts with `errors = 1` before the database is even queried. The
final `db.session.commit()` is a no-op in the embedding because every
individual mutation is already guarded by `dry_run`. -/
def syncAllMembers (roblox_members : List RobloxMember) (db : DBState)
    (dry_run : Bool) (now : Nat) : SyncStats × DBState :=
  let statsA : SyncStats :=
    { total_roblox_members := roblox_members.length
      eligible_roblox_members := 0
      total_db_members := 0
      members_added := 0
      members_updated := 0
      ranks_changed := 0
      members_skipped := 0
      errors := 0 }
  if roblox_members.isEmpty then
    ({ statsA with errors := 1 }, db)
  else
    let stats0 := { statsA with total_db_members := (db.members.filter (·.is_active)).length }
    let lookup := dbUsernameIndex db.members
    let init : SyncerState :=
      { members := db.members, promotions := db.promotions, next_id := db.next_id, stats := stats0 }
    let final := roblox_members.foldl (processRobloxMember lookup dry_run now) init
    (final.stats, { members := final.members, promotions := final.promotions, next_id := final.next_id })

/-! ## `sync_from_roblox` (src/utils/roblox_sync.py) -/

/-- Statistics dict built inside `sync_from_roblox`. -/
structure SyncFStats where
  added : Nat
  updated : Nat
  rank_changes : Nat
  errors : Nat
deriving Repr, DecidableEq

/-- Mutable state threaded through the member loop of `sync_from_roblox`. -/
structure SyncFState where
  members : List Member
  promotions : List PromotionLog
  next_id : Nat
  stats : SyncFStats
deriving Repr, DecidableEq

/-- The `roblox_role_to_system_rank` dict of `sync_from_roblox`, as a lookup
function. It is filled first from the active `RankMapping` rows keyed by their
truthy `roblox_role_name` (a repeated key keeps the last row), then — for every
fetched role whose truthy name appears in the static `RANK_MAPPING` — by the
static entry, which overwrites the database entry for that key. -/
def robloxRoleToSystemRank (rank_mappings : List RankMapping)
    (roblox_roles : List RobloxRole) (role_name : String) : Option String :=
  if !(role_name == "") && roblox_roles.any (fun r => r.name == role_name)
      && (RANK_MAPPING.lookup role_name).isSome then
    RANK_MAPPING.lookup role_name
  else
    ((rank_mappings.filter (fun m =>
        m.is_active && strTruthy m.roblox_role_name && (m.roblox_role_name.getD "" == role_name))).getLast?).map
      (·.system_rank)

/-- The per-member rank resolution of `sync_from_roblox`:
`system_rank = roblox_role_to_system_rank.get(role_name)`, falling back to the
raw role name when the lookup result is falsy (`if not system_rank`). -/
def resolveSystemRank (rank_mappings : List RankMapping)
    (roblox_roles : List RobloxRole) (role_name : String) : String :=
  match robloxRoleToSystemRank rank_mappings roblox_roles role_name with
  | some s => if s == "" then role_name else s
  | none => role_name

/-- `Member.query.filter_by(p).first()` as the index of the first matching row.
Note these queries do not filter on `is_active`. -/
def findByIdx (members : List Member) (p : Member → Bool) : Option Nat :=
  (List.range members.length).find? (fun i =>
    match members[i]? with
    | some m => p m
    | none => false)

/-- The three-stage member lookup of `sync_from_roblox`: by `roblox_id`
(string-compared against `str(user_id)`), then by exact `roblox_username`,
then by exact `discord_username`. -/
def findMemberIdx (members : List Member) (rm : RobloxMember) : Option Nat :=
  match findByIdx members (fun m => m.roblox_id == some (toString rm.user_id)) with
  | some i => some i
  | none =>
    match findByIdx members (fun m => m.roblox_username == some rm.username) with
    | some i => some i
    | none => findByIdx members (fun m => m.discord_username == rm.username)

/-- One iteration of the member loop of `sync_from_roblox`. The queries run
against the live session, so the lookup sees rows added or updated earlier in
the same pass. The collision branch (`member.roblox_id` truthy and different
from `str(roblox_member.user_id)`) logs a warning and `continue`s: no field
changes and no statistic is touched. A matched member without collision is
always counted in `updated`, even when nothing but `last_updated` changes. -/
def processSyncMember (rank_mappings : List RankMapping) (roblox_roles : List RobloxRole)
    (now : Nat) (st : SyncFState) (rm : RobloxMember) : SyncFState :=
  let system_rank := resolveSystemRank rank_mappings roblox_roles rm.role_name
  match findMemberIdx st.members rm with
  | some i =>
    match st.members[i]? with
    | some member =>
      if strTruthy member.roblox_id && !(member.roblox_id == some (toString rm.user_id)) then
        st
      else
        let rank_diff := !(member.current_rank == system_rank)
        let promos : List PromotionLog :=
          if rank_diff then
            [{ member_id := member.id
               from_rank := member.current_rank
               to_rank := system_rank
               reason := "Automatic sync from Roblox group"
               promoted_by := "Roblox Sync Bot" }]
          else []
        let m1 := if rank_diff then { member with current_rank := system_rank } else member
        let m2 := if !strTruthy member.roblox_id then { m1 with roblox_id := some (toString rm.user_id) } else m1
        let m3 := if !(member.roblox_username == some rm.username) then { m2 with roblox_username := some rm.username } else m2
        let m4 := { m3 with last_updated := now }
        { members := st.members.set i m4
          promotions := st.promotions ++ promos
          next_id := st.next_id
          stats := { st.stats with
            rank_changes := st.stats.rank_changes + (if rank_diff then 1 else 0)
            updated := st.stats.updated + 1 } }
    | none => st
  | none =>
    if eligibleRanks.contains system_rank then
      { members := st.members ++ [newMemberFromRoblox rm system_rank now st.next_id]
        promotions := st.promotions
        next_id := st.next_id + 1
        stats := { st.stats with added := st.stats.added + 1 } }
    else st

/-- The departure sweep at the end of `sync_from_roblox`: every active member
whose truthy `roblox_id` is not among the fetched roster ids is marked
inactive (`is_active = False`, `last_updated` refreshed). The source comment
reads "Don't auto-delete, just mark inactive for manual review". -/
def deactivateDeparted (roster_ids : List String) (now : Nat)
    (members : List Member) : List Member :=
  members.map (fun m =>
    if m.is_active && strTruthy m.roblox_id && !(roster_ids.contains (m.roblox_id.getD "")) then
      { m with is_active := false, last_updated := now }
    else m)

/-- `sync_from_roblox`, body of the `try` block after the API client is
obtained. Returns `none` for the early `'Failed to fetch members'` exit.
The `role_name_to_id` dict built at the top of the function is dead code
(never read) and is not modelled. Per-member exceptions cannot arise in the
embedding, so `stats['errors']` stays 0. -/
def syncFromRoblox (roblox_members : List RobloxMember) (roblox_roles : List RobloxRole)
    (rank_mappings : List RankMapping) (db : DBState) (now : Nat) :
    Option SyncFStats × DBState :=
  if roblox_members.isEmpty then (none, db)
  else
    let init : SyncFState :=
      { members := db.members, promotions := db.promotions, next_id := db.next_id
        stats := { added := 0, updated := 0, rank_changes := 0, errors := 0 } }
    let final := roblox_members.foldl (processSyncMember rank_mappings roblox_roles now) init
    let roster_ids := roblox_members.map (fun m => toString m.user_id)
    let members2 := deactivateDeparted roster_ids now final.members
    (some final.stats, { members := members2, promotions := final.promotions, next_id := final.next_id })

/-! ## The HTTP client retry loop (`RobloxAPI._make_request`) -/

/-- Outcome of one HTTP exchange as classified by `_make_request`. -/
inductive HttpResponse
  | ok
  | rateLimited
  | unauthorized
  | forbidden
  | otherStatus (code : Nat)
  | connectionError
deriving Repr, DecidableEq

/-- Trace of one `_make_request` call: the value returned to the caller
(`some ()` abstracts a parsed JSON body, `none` is the hard-failure return),
the total number of HTTP requests issued, and the total seconds slept in
backoff. -/
structure RequestTrace where
  result : Option Unit
  requests : Nat
  slept : Nat
deriving Repr, DecidableEq

/-- `RobloxAPI._make_request`. `resp i` is the provider's answer to the
`i`-th request of the session. On 429 the code sleeps 60 seconds and recurses
with `retry_count + 1` while `retry_count < 3`; on a transport error it sleeps
`2 * (retry_count + 1)` seconds, rebuilds the session and recurses under the
same bound. 401/403/other statuses return `None` without retrying. -/
def makeRequest (resp : Nat → HttpResponse) (idx : Nat) (retry_count : Nat) : RequestTrace :=
  match resp idx with
  | .ok => { result := some (), requests := 1, slept := 0 }
  | .rateLimited =>
    if h : retry_count < 3 then
      let t := makeRequest resp (idx + 1) (retry_count + 1)
      { result := t.result, requests := t.requests + 1, slept := t.slept + 60 }
    else { result := none, requests := 1, slept := 0 }
  | .unauthorized => { result := none, requests := 1, slept := 0 }
  | .forbidden => { result := none, requests := 1, slept := 0 }
  | .otherStatus _ => { result := none, requests := 1, slept := 0 }
  | .connectionError =>
    if h : retry_count < 3 then
      let t := makeRequest resp (idx + 1) (retry_count + 1)
      { result := t.result, requests := t.requests + 1, slept := t.slept + 2 * (retry_count + 1) }
    else { result := none, requests := 1, slept := 0 }
termination_by 3 - retry_count
decreasing_by all_goals omega

/-! ## Push-to-remote paths and the re-entrancy flag (src/utils/roblox_sync.py) -/

/-- Process-wide state relevant to the push paths: the module-level
`_syncing_from_roblox` flag and a count of HTTP calls made to the remote
provider. -/
structure GlobalState where
  syncing_from_roblox : Bool
  remote_calls : Nat
deriving Repr, DecidableEq

/-- `set_syncing_flag`. -/
def setSyncingFlag (g : GlobalState) (value : Bool) : GlobalState :=
  { g with syncing_from_roblox := value }

/-- The `{'success': ..., 'message': ...}` dict returned by the push helpers. -/
structure PushResult where
  success : Bool
  message : String
deriving Repr, DecidableEq

/-- Outcome of a remote write (`update_member_role`). -/
inductive RemoteOutcome
  | ok
  | failed (msg : String)
deriving Repr, DecidableEq

/-- `get_role_id_for_rank`: first active `RankMapping` row for the rank, or
`None`. Absence raises nothing; it is an ordinary return value. -/
def getRoleIdForRank (rank_mappings : List RankMapping) (system_rank : String) : Option Nat :=
  ((rank_mappings.filter (fun m => m.system_rank == system_rank && m.is_active)).head?).map
    (·.roblox_role_id)

/-- `sync_member_to_roblox`. `api_configured` abstracts `get_roblox_api()`
returning a client; `remote` abstracts the verified outcome of
`update_member_role` (which is the one remote call of this path, counted in
`remote_calls`). All call sites in the repository use the default
`skip_if_syncing=True`. -/
def syncMemberToRoblox (g : GlobalState) (member : Member) (skip_if_syncing : Bool)
    (api_configured : Bool) (rank_mappings : List RankMapping)
    (remote : RemoteOutcome) : PushResult × GlobalState :=
  if skip_if_syncing && g.syncing_from_roblox then
    ({ success := true, message := "Skipped - syncing from Roblox" }, g)
  else if !api_configured then
    ({ success := false, message := "Roblox API not configured" }, g)
  else if !strTruthy member.roblox_id then
    ({ success := false, message := "Member " ++ member.discord_username ++ " has no Roblox ID" }, g)
  else
    let role_id := getRoleIdForRank rank_mappings member.current_rank
    if !natOptTruthy role_id then
      ({ success := false, message := "No role mapping found for rank: " ++ member.current_rank }, g)
    else
      match (member.roblox_id.getD "").toNat? with
      | none =>
        ({ success := false, message := "Invalid Roblox ID: " ++ member.roblox_id.getD "" }, g)
      | some _ =>
        let g1 := { g with remote_calls := g.remote_calls + 1 }
        match remote with
        | .ok =>
          ({ success := true
             message := "Updated " ++ member.discord_username ++ " to " ++ member.current_rank ++ " in Roblox" }, g1)
        | .failed msg =>
          ({ success := false, message := "Failed to update role in Roblox: " ++ msg }, g1)

/-- `add_member_to_roblox`. `resolved_user_id` abstracts
`get_user_id_by_username` (one remote call); `remote_ok` abstracts
`add_member_to_group` (a second remote call). The function may set the
member's missing `roblox_id`, hence the returned `Member`. -/
def addMemberToRoblox (g : GlobalState) (member : Member) (skip_if_syncing : Bool)
    (api_configured : Bool) (resolved_user_id : Option Nat)
    (rank_mappings : List RankMapping) (remote_ok : Bool) :
    PushResult × GlobalState × Member :=
  if skip_if_syncing && g.syncing_from_roblox then
    ({ success := true, message := "Skipped - syncing from Roblox" }, g, member)
  else if !api_configured then
    ({ success := false, message := "Roblox API not configured" }, g, member)
  else if !strTruthy member.roblox_username then
    ({ success := false, message := "Member " ++ member.discord_username ++ " has no Roblox username" }, g, member)
  else
    let g1 := { g with remote_calls := g.remote_calls + 1 }
    match resolved_user_id with
    | none =>
      ({ success := false, message := "Could not find Roblox user: " ++ member.roblox_username.getD "" }, g1, member)
    | some uid =>
      let member1 := if !strTruthy member.roblox_id then { member with roblox_id := some (toString uid) } else member
      let role_id := getRoleIdForRank rank_mappings member1.current_rank
      if !natOptTruthy role_id then
        ({ success := false, message := "No role mapping found for rank: " ++ member1.current_rank }, g1, member1)
      else
        let g2 := { g1 with remote_calls := g1.remote_calls + 1 }
        if remote_ok then
          ({ success := true, message := "Added " ++ member.discord_username ++ " to Roblox group" }, g2, member1)
        else
          ({ success := false, message := "Failed to add member to Roblox group" }, g2, member1)

/-- `remove_member_from_roblox`. `remote_ok` abstracts
`remove_member_from_group` (the one remote call of this path). -/
def removeMemberFromRoblox (g : GlobalState) (member : Member) (skip_if_syncing : Bool)
    (api_configured : Bool) (remote_ok : Bool) : PushResult × GlobalState :=
  if skip_if_syncing && g.syncing_from_roblox then
    ({ success := true, message := "Skipped - syncing from Roblox" }, g)
  else if !api_configured then
    ({ success := false, message := "Roblox API not configured" }, g)
  else if !strTruthy member.roblox_id then
    ({ success := false, message := "Member " ++ member.discord_username ++ " has no Roblox ID" }, g)
  else
    match (member.roblox_id.getD "").toNat? with
    | none => ({ success := false, message := "Invalid Roblox ID: " ++ member.roblox_id.getD "" }, g)
    | some _ =>
      let g1 := { g with remote_calls := g.remote_calls + 1 }
      if remote_ok then
        ({ success := true, message := "Removed " ++ member.discord_username ++ " from Roblox group" }, g1)
      else
        ({ success := false, message := "Failed to remove member from Roblox group" }, g1)

/-- Result of a full `sync_from_roblox` invocation, including the re-entrancy
flag lifecycle: `flag_during_pass` is the value of the module flag as any
code running inside the `try` block (e.g. a push helper) would read it, and
`final_flag` is its value after the `finally` clause. -/
structure SyncRunOutput where
  success : Bool
  stats : Option SyncFStats
  db : DBState
  flag_during_pass : Bool
  final_flag : Bool
deriving Repr, DecidableEq

/-- `sync_from_roblox` with its flag lifecycle: `set_syncing_flag(True)` at
entry, then the `try` body (with `injected_error` standing for an arbitrary
exception raised anywhere inside it, which is caught, rolls the session back
and yields an error result), then `set_syncing_flag(False)` in the `finally`
clause on every exit path. -/
def syncFromRobloxRun (g : GlobalState) (api_configured : Bool)
    (roblox_members : List RobloxMember) (roblox_roles : List RobloxRole)
    (rank_mappings : List RankMapping) (db : DBState) (now : Nat)
    (injected_error : Option String) : SyncRunOutput × GlobalState :=
  let g1 := setSyncingFlag g true
  let observed := g1.syncing_from_roblox
  let bodyOut : Bool × Option SyncFStats × DBState :=
    match injected_error with
    | some _ => (false, none, db)
    | none =>
      if !api_configured then (false, none, db)
      else
        match syncFromRoblox roblox_members roblox_roles rank_mappings db now with
        | (none, d) => (false, none, d)
        | (some s, d) => (true, some s, d)
  let g2 := setSyncingFlag g1 false
  ({ success := bodyOut.1
     stats := bodyOut.2.1
     db := bodyOut.2.2
     flag_during_pass := observed
     final_flag := g2.syncing_from_roblox }, g2)

/-! ## Derived characterizations used by the theorems -/

/-- The lookup key a roster member contributes:
`roblox_member.username.lower()`. -/
def rmKey (rm : RobloxMember) : String :=
  strLower rm.username

/-- The translated rank of a roster member in `sync_all_members`. -/
def sysRank (rm : RobloxMember) : String :=
  mapRobloxRankToSystem rm.role_name

/-- Whether processing roster member `rm` in `sync_all_members` updates the
member at index `i` of the table (it is eligible and the username lookup built
from the initial table resolves to `i`). -/
def matchesIdx (L : String → Option Nat) (i : Nat) (rm : RobloxMember) : Bool :=
  isEligibleRank (sysRank rm) && (L (rmKey rm) == some i)

/-- The final value of the member initially at index `i` after a
non-dry `sync_all_members` pass over `roster` (closed form). -/
def coreVal (L : String → Option Nat) (now : Nat) (roster : List RobloxMember)
    (m0 : Member) (i : Nat) : Member :=
  match roster.find? (matchesIdx L i) with
  | some rm => (updateExistingMember m0 rm (sysRank rm) false now).member
  | none => m0

/-- The member rows appended by a non-dry `sync_all_members` pass (closed
form): one per eligible roster member whose key is absent from the initial
lookup, with autoincremented ids starting at `n0`. -/
def addsAfter (L : String → Option Nat) (now : Nat) :
    List RobloxMember → Nat → List Member
  | [], _ => []
  | rm :: rest, n0 =>
    if isEligibleRank (sysRank rm) && (L (rmKey rm)).isNone then
      newMemberFromRoblox rm (sysRank rm) now n0 :: addsAfter L now rest (n0 + 1)
    else addsAfter L now rest n0

/-- The promotion record written by both sync passes for one rank change. -/
def promoEntry (id : Nat) (fromRank toRank : String) : PromotionLog :=
  { member_id := id
    from_rank := fromRank
    to_rank := toRank
    reason := "Automatic sync from Roblox group"
    promoted_by := "Roblox Sync Bot" }

/-- The promotion rows appended by a non-dry `sync_all_members` pass (closed
form): one per eligible roster member matched to an initial member whose rank
differs from the translated rank. -/
def promosAfter (L : String → Option Nat) (roster : List RobloxMember)
    (M0 : List Member) : List PromotionLog :=
  roster.filterMap (fun rm =>
    if isEligibleRank (sysRank rm) then
      match L (rmKey rm) with
      | some i =>
        M0[i]?.bind (fun m0 =>
          if m0.current_rank == sysRank rm then none
          else some (promoEntry m0.id m0.current_rank (sysRank rm)))
      | none => none
    else none)

/-- The per-roster-member promotion row of `promosAfter`, as a named step. -/
def promoStep (L : String → Option Nat) (M0 : List Member)
    (rm : RobloxMember) : Option PromotionLog :=
  if isEligibleRank (sysRank rm) then
    match L (rmKey rm) with
    | some i =>
      M0[i]?.bind (fun m0 =>
        if m0.current_rank == sysRank rm then none
        else some (promoEntry m0.id m0.current_rank (sysRank rm)))
    | none => none
  else none

/-- The initial loop state `sync_all_members` builds for a nonempty roster. -/
def initSyncerState (roster : List RobloxMember) (db : DBState) : SyncerState :=
  { members := db.members
    promotions := db.promotions
    next_id := db.next_id
    stats := { total_roblox_members := roster.length
               eligible_roblox_members := 0
               total_db_members := (db.members.filter (fun m => m.is_active)).length
               members_added := 0
               members_updated := 0
               ranks_changed := 0
               members_skipped := 0
               errors := 0 } }

/-- A member table is synchronized with a roster entry: the username lookup
resolves somewhere, and the member found there already carries the translated
rank, a truthy `roblox_id`, and exactly the remote username. A second
`sync_all_members` pass leaves such a member's statistics untouched. -/
def SyncedAt (rm : RobloxMember) (members : List Member) : Prop :=
  ∃ i m, dbUsernameIndex members (rmKey rm) = some i ∧ members[i]? = some m ∧
    m.current_rank = sysRank rm ∧ strTruthy m.roblox_id = true ∧
    m.roblox_username = some rm.username

/-- A member table is synchronized with every eligible roster entry. -/
def Synced (roster : List RobloxMember) (members : List Member) : Prop :=
  ∀ rm ∈ roster, isEligibleRank (sysRank rm) = true → SyncedAt rm members

/-- Erase the `last_updated` timestamp (the only field a no-change update
pass still refreshes). -/
def clearLU (m : Member) : Member :=
  { m with last_updated := 0 }

/-- Two member tables agree except possibly on `last_updated` timestamps. -/
def MembersEqMod (xs ys : List Member) : Prop :=
  xs.map clearLU = ys.map clearLU

/-! ## Concrete fixtures for counterexamples and witnesses -/

/-- A roster member fixture. -/
def exRM (uid : Nat) (uname role : String) : RobloxMember :=
  { user_id := uid, username := uname, display_name := uname, role_id := 0,
    role_name := role, joined_date := "" }

/-- A local member fixture (active, timestamps 0). -/
def exLM (id : Nat) (handle : String) (runame rid : Option String)
    (rank : String) : Member :=
  { id := id, discord_username := handle, roblox_username := runame,
    roblox_id := rid, current_rank := rank, join_date := 0, last_updated := 0,
    is_active := true }

/-- A database fixture with an empty promotion log. -/
def exDB (ms : List Member) (n : Nat) : DBState :=
  { members := ms, promotions := [], next_id := n }

/-- An all-zero `MemberSyncer` statistics fixture. -/
def exStats0 : SyncStats :=
  { total_roblox_members := 0, eligible_roblox_members := 0, total_db_members := 0,
    members_added := 0, members_updated := 0, ranks_changed := 0,
    members_skipped := 0, errors := 0 }

/-- A `sync_all_members` loop-state fixture. -/
def exSyncerState : SyncerState :=
  { members := [exLM 1 "cleo" (some "cleo") (some "5") "Commander"],
    promotions := [], next_id := 2, stats := exStats0 }

/-- A `sync_from_roblox` loop-state fixture. -/
def exSyncFState : SyncFState :=
  { members := [exLM 1 "cleo" (some "cleo") (some "5") "Commander"],
    promotions := [], next_id := 2
    stats := { added := 0, updated := 0, rank_changes := 0, errors := 0 } }

/-- Global state with the re-entrancy flag raised. -/
def exGlobalOn : GlobalState :=
  { syncing_from_roblox := true, remote_calls := 0 }

/-- Global state with the re-entrancy flag cleared. -/
def exGlobalOff : GlobalState :=
  { syncing_from_roblox := false, remote_calls := 0 }

/-! ## Helper lemmas -/

/-- Unfolding equation of `makeRequest` on a 429 answer with retries left. -/
theorem makeRequest_rateLimited_lt (resp : Nat → HttpResponse) (idx retry_count : Nat)
    (hr : resp idx = HttpResponse.rateLimited) (hlt : retry_count < 3) :
    makeRequest resp idx retry_count =
      { result := (makeRequest resp (idx + 1) (retry_count + 1)).result
        requests := (makeRequest resp (idx + 1) (retry_count + 1)).requests + 1
        slept := (makeRequest resp (idx + 1) (retry_count + 1)).slept + 60 } := by
  rw [makeRequest.eq_def, hr]
  simp [hlt]

/-- Unfolding equation of `makeRequest` on a 429 answer with the retry budget
exhausted. -/
theorem makeRequest_rateLimited_ge (resp : Nat → HttpResponse) (idx retry_count : Nat)
    (hr : resp idx = HttpResponse.rateLimited) (hge : ¬ retry_count < 3) :
    makeRequest resp idx retry_count = { result := none, requests := 1, slept := 0 } := by
  rw [makeRequest.eq_def, hr]
  simp [hge]

/-- The retry loop of `_make_request` issues at most `1 + (3 - retry_count)`
HTTP requests. -/
theorem makeRequest_requests_le (resp : Nat → HttpResponse) :
    ∀ (n idx retry_count : Nat), 3 - retry_count ≤ n →
      (makeRequest resp idx retry_count).requests ≤ 1 + (3 - retry_count) := by
  intro n
  induction n with
  | zero =>
    intro idx rc h
    have h3 : ¬ rc < 3 := by omega
    rw [makeRequest.eq_def]
    cases hr : resp idx <;> simp [h3]
  | succ n ih =>
    intro idx rc h
    rw [makeRequest.eq_def]
    cases hr : resp idx <;> simp only
    case ok => simp
    case unauthorized => simp
    case forbidden => simp
    case otherStatus c => simp
    case rateLimited =>
      by_cases hlt : rc < 3
      · simp only [hlt, dif_pos]
        have := ih (idx + 1) (rc + 1) (by omega)
        omega
      · simp [hlt]
    case connectionError =>
      by_cases hlt : rc < 3
      · simp only [hlt, dif_pos]
        have := ih (idx + 1) (rc + 1) (by omega)
        omega
      · simp [hlt]

/-- A defined index is within bounds. -/
theorem getElem?_some_lt {α : Type} {l : List α} {i : Nat} {a : α}
    (h : l[i]? = some a) : i < l.length := by
  by_contra hc
  rw [List.getElem?_eq_none (by omega)] at h
  cases h

/-- Closed form of the member row produced by a non-dry
`_update_existing_member`: the rank always ends up at the translated rank, a
falsy `roblox_id` is filled in (a differing truthy one is kept), the remote
username is adopted, and `last_updated` is refreshed. -/
theorem updateExistingMember_member (m : Member) (rm : RobloxMember) (r : String) (now : Nat) :
    (updateExistingMember m rm r false now).member =
      { id := m.id, discord_username := m.discord_username,
        roblox_username := some rm.username,
        roblox_id := if strTruthy m.roblox_id then m.roblox_id else some (toString rm.user_id),
        current_rank := r, join_date := m.join_date, last_updated := now,
        is_active := m.is_active } := by
  unfold updateExistingMember
  by_cases h1 : m.current_rank = r <;> by_cases h2 : strTruthy m.roblox_id = true <;>
    by_cases h3 : m.roblox_username = some rm.username <;> simp_all

/-- Closed form of the promotion rows produced by a non-dry
`_update_existing_member`. -/
theorem updateExistingMember_promotions (m : Member) (rm : RobloxMember) (r : String) (now : Nat) :
    (updateExistingMember m rm r false now).promotions =
      if m.current_rank = r then [] else [promoEntry m.id m.current_rank r] := by
  unfold updateExistingMember promoEntry
  by_cases h1 : m.current_rank = r <;> simp [h1]

/-- The `ranks_changed` flag of `_update_existing_member`. -/
theorem updateExistingMember_rank_changed (m : Member) (rm : RobloxMember) (r : String)
    (d : Bool) (now : Nat) :
    (updateExistingMember m rm r d now).rank_changed = !(m.current_rank == r) := rfl

/-- The `members_updated` flag of `_update_existing_member`. -/
theorem updateExistingMember_changed (m : Member) (rm : RobloxMember) (r : String)
    (d : Bool) (now : Nat) :
    (updateExistingMember m rm r d now).changed =
      (!(m.current_rank == r) || !strTruthy m.roblox_id ||
        !(m.roblox_username == some rm.username)) := rfl

/-- Setting an index to the value it already holds is a no-op. -/
theorem set_getElem?_self {α : Type} : ∀ (l : List α) (i : Nat) (a : α),
    l[i]? = some a → l.set i a = l
  | [], i, a, h => by cases h
  | x :: l, 0, a, h => by
    simp at h
    simp [List.set, h]
  | x :: l, i + 1, a, h => by
    simp at h
    simp [List.set, set_getElem?_self l i a h]

/-- What a successful `db_by_roblox_username` lookup guarantees about the
member at the returned index. -/
theorem dbUsernameIndex_spec {members : List Member} {k : String} {i : Nat}
    (h : dbUsernameIndex members k = some i) :
    ∃ m, members[i]? = some m ∧ activeUnameMatch m k = true := by
  unfold dbUsernameIndex at h
  have hmem := List.mem_of_mem_getLast? h
  have hpred := List.of_mem_filter hmem
  unfold memberMatchAt at hpred
  cases hg : members[i]? with
  | none => rw [hg] at hpred; cases hpred
  | some m => rw [hg] at hpred; exact ⟨m, rfl, hpred⟩

/-- What a successful `findByIdx` query guarantees about the member at the
returned index. -/
theorem findByIdx_spec {members : List Member} {p : Member → Bool} {i : Nat}
    (h : findByIdx members p = some i) :
    ∃ m, members[i]? = some m ∧ p m = true := by
  unfold findByIdx at h
  have hpred := List.find?_some h
  cases hg : members[i]? with
  | none => rw [hg] at hpred; cases hpred
  | some m => rw [hg] at hpred; exact ⟨m, rfl, hpred⟩

/-- What the three-stage member lookup of `sync_from_roblox` guarantees: the
member at the returned index matches the remote member on at least one of the
three identity keys. -/
theorem findMemberIdx_spec {members : List Member} {rm : RobloxMember} {i : Nat}
    (h : findMemberIdx members rm = some i) :
    ∃ m, members[i]? = some m ∧
      (m.roblox_id = some (toString rm.user_id) ∨ m.roblox_username = some rm.username ∨
        m.discord_username = rm.username) := by
  unfold findMemberIdx at h
  cases h1 : findByIdx members (fun m => m.roblox_id == some (toString rm.user_id)) with
  | some j =>
    rw [h1] at h
    cases h
    obtain ⟨m, hg, hp⟩ := findByIdx_spec h1
    exact ⟨m, hg, Or.inl (by simpa using hp)⟩
  | none =>
    rw [h1] at h
    cases h2 : findByIdx members (fun m => m.roblox_username == some rm.username) with
    | some j =>
      rw [h2] at h
      cases h
      obtain ⟨m, hg, hp⟩ := findByIdx_spec h2
      exact ⟨m, hg, Or.inr (Or.inl (by simpa using hp))⟩
    | none =>
      rw [h2] at h
      obtain ⟨m, hg, hp⟩ := findByIdx_spec h
      exact ⟨m, hg, Or.inr (Or.inr (by simpa using hp))⟩

/-- A `sync_all_members` processing step never touches an index the username
lookup cannot return. -/
theorem processRobloxMember_preserves {L : String → Option Nat} {d : Bool} {now : Nat}
    {st : SyncerState} {rm : RobloxMember} {i : Nat} {m : Member}
    (hget : st.members[i]? = some m)
    (hnot : ∀ j, L (strLower rm.username) = some j → j ≠ i) :
    (processRobloxMember L d now st rm).members[i]? = some m := by
  unfold processRobloxMember
  by_cases helig : isEligibleRank (mapRobloxRankToSystem rm.role_name) = true
  · simp only [helig, if_true]
    cases hl : L (strLower rm.username) with
    | some j =>
      simp only [hl]
      cases hg : st.members[j]? with
      | some dbm =>
        simp only [hg]
        rw [List.getElem?_set_ne (hnot j hl)]
        exact hget
      | none => simp only [hg]; exact hget
    | none =>
      simp only [hl]
      cases d
      · simpa [List.getElem?_append_left (getElem?_some_lt hget)] using hget
      · simpa using hget
  · simp only [Bool.not_eq_true] at helig
    simp only [helig, Bool.false_eq_true, if_false]
    exact hget

/-- The whole `sync_all_members` member loop never touches such an index. -/
theorem foldRobloxMembers_preserves {L : String → Option Nat} {d : Bool} {now : Nat}
    {i : Nat} {m : Member} :
    ∀ {roster : List RobloxMember} {st : SyncerState},
      st.members[i]? = some m →
      (∀ rm ∈ roster, ∀ j, L (strLower rm.username) = some j → j ≠ i) →
      (roster.foldl (processRobloxMember L d now) st).members[i]? = some m := by
  intro roster
  induction roster with
  | nil => intro st hget _; exact hget
  | cons rm rest ih =>
    intro st hget hnot
    rw [List.foldl_cons]
    exact ih (processRobloxMember_preserves hget (hnot rm (by simp)))
      (fun rm' hm' => hnot rm' (by simp [hm']))

/-- A `sync_from_roblox` processing step never touches a member that matches
the remote member on none of the three identity keys. -/
theorem processSyncMember_preserves {maps : List RankMapping} {roles : List RobloxRole}
    {now : Nat} {st : SyncFState} {rm : RobloxMember} {i : Nat} {m : Member}
    (hget : st.members[i]? = some m)
    (hid : m.roblox_id ≠ some (toString rm.user_id))
    (hun : m.roblox_username ≠ some rm.username)
    (hdn : m.discord_username ≠ rm.username) :
    (processSyncMember maps roles now st rm).members[i]? = some m := by
  unfold processSyncMember
  cases hf : findMemberIdx st.members rm with
  | some j =>
    have hji : j ≠ i := by
      intro hji
      subst hji
      obtain ⟨m', hg', hmatch⟩ := findMemberIdx_spec hf
      rw [hget] at hg'
      cases hg'
      rcases hmatch with hc | hc | hc
      · exact hid hc
      · exact hun hc
      · exact hdn hc
    simp only [hf]
    cases hg : st.members[j]? with
    | some member =>
      simp only [hg]
      by_cases hcoll : (strTruthy member.roblox_id &&
          !(member.roblox_id == some (toString rm.user_id))) = true
      · simp only [hcoll, if_true]; exact hget
      · simp only [Bool.not_eq_true] at hcoll
        simp only [hcoll, Bool.false_eq_true, if_false]
        rw [List.getElem?_set_ne hji]
        exact hget
    | none => simp only [hg]; exact hget
  | none =>
    simp only [hf]
    by_cases helig : (eligibleRanks.contains (resolveSystemRank maps roles rm.role_name)) = true
    · simp only [helig, if_true]
      simpa [List.getElem?_append_left (getElem?_some_lt hget)] using hget
    · simp only [Bool.not_eq_true] at helig
      simp only [helig, Bool.false_eq_true, if_false]
      exact hget

/-- The whole `sync_from_roblox` member loop never touches such a member. -/
theorem foldSyncMembers_preserves {maps : List RankMapping} {roles : List RobloxRole}
    {now : Nat} {i : Nat} {m : Member} :
    ∀ {roster : List RobloxMember} {st : SyncFState},
      st.members[i]? = some m →
      (∀ rm ∈ roster, m.roblox_id ≠ some (toString rm.user_id) ∧
        m.roblox_username ≠ some rm.username ∧ m.discord_username ≠ rm.username) →
      (roster.foldl (processSyncMember maps roles now) st).members[i]? = some m := by
  intro roster
  induction roster with
  | nil => intro st hget _; exact hget
  | cons rm rest ih =>
    intro st hget hnot
    rw [List.foldl_cons]
    obtain ⟨h1, h2, h3⟩ := hnot rm (by simp)
    exact ih (processSyncMember_preserves hget h1 h2 h3)
      (fun rm' hm' => hnot rm' (by simp [hm']))

/-! ## C7 — 429 handling of `RobloxAPI._make_request` -/

/-- C7 counterexample. When the provider answers 429 on every request, a call
entered with `retry_count = 0` issues 4 HTTP requests in total (the initial
attempt plus three retries), not 3 as the claim states. -/
theorem rateLimitFourAttempts_cex :
    (makeRequest (fun _ => HttpResponse.rateLimited) 0 0).requests = 4 ∧
    (makeRequest (fun _ => HttpResponse.rateLimited) 0 0).requests ≠ 3 := by
  have h4 : (makeRequest (fun _ => HttpResponse.rateLimited) 0 0).requests = 4 := by
    simp [makeRequest]
  exact ⟨h4, by omega⟩

/-- C7 (amended): on HTTP 429 the client sleeps a fixed 60 seconds and retries
the same request; the recursion is bounded at 4 total attempts (the initial
request plus at most 3 retries, `retry_count < 3`); when the provider keeps
answering 429 the call returns the hard-failure value `None` to the caller
(no exception), after exactly 4 requests and 180 seconds of backoff. -/
theorem rateLimitRetry_amended :
    (∀ (resp : Nat → HttpResponse) (idx : Nat),
      (∀ i, resp i = HttpResponse.rateLimited) →
      makeRequest resp idx 0 = { result := none, requests := 4, slept := 180 }) ∧
    (∀ (resp : Nat → HttpResponse) (idx retry_count : Nat),
      (makeRequest resp idx retry_count).requests ≤ 1 + (3 - retry_count)) := by
  constructor
  · intro resp idx h
    rw [makeRequest_rateLimited_lt resp idx 0 (h idx) (by omega),
        makeRequest_rateLimited_lt resp (idx + 1) 1 (h (idx + 1)) (by omega),
        makeRequest_rateLimited_lt resp (idx + 2) 2 (h (idx + 2)) (by omega),
        makeRequest_rateLimited_ge resp (idx + 3) 3 (h (idx + 3)) (by omega)]
  · intro resp idx rc
    exact makeRequest_requests_le resp (3 - rc) idx rc (Nat.le_refl _)

/-- C7 witness: the amended theorem applied to the all-429 provider. -/
theorem rateLimitRetry_amended_witness :
    makeRequest (fun _ => HttpResponse.rateLimited) 5 0 =
      { result := none, requests := 4, slept := 180 } :=
  rateLimitRetry_amended.1 (fun _ => HttpResponse.rateLimited) 5 (fun _ => rfl)

/-! ## C8 — the re-entrancy flag -/

/-- C8: (i) a full `sync_from_roblox` run raises the module flag before the
`try` body executes and the `finally` clause clears it on every exit path,
including injected exceptions and the early-return failures; (ii)–(iv) while
the flag is raised, each push-to-remote helper called with the (universal)
default `skip_if_syncing=True` returns the no-op success
`{'success': True, 'message': 'Skipped - syncing from Roblox'}` and leaves the
global state — in particular the remote-call count — untouched. -/
theorem reentrancyGuard_thm :
    (∀ (g : GlobalState) (conf : Bool) (roster : List RobloxMember)
       (roles : List RobloxRole) (maps : List RankMapping) (db : DBState)
       (now : Nat) (err : Option String),
      (syncFromRobloxRun g conf roster roles maps db now err).1.flag_during_pass = true ∧
      (syncFromRobloxRun g conf roster roles maps db now err).1.final_flag = false ∧
      (syncFromRobloxRun g conf roster roles maps db now err).2.syncing_from_roblox = false) ∧
    (∀ (g : GlobalState) (member : Member) (conf : Bool) (maps : List RankMapping)
       (remote : RemoteOutcome), g.syncing_from_roblox = true →
      syncMemberToRoblox g member true conf maps remote =
        ({ success := true, message := "Skipped - syncing from Roblox" }, g)) ∧
    (∀ (g : GlobalState) (member : Member) (conf : Bool) (ruid : Option Nat)
       (maps : List RankMapping) (rok : Bool), g.syncing_from_roblox = true →
      addMemberToRoblox g member true conf ruid maps rok =
        ({ success := true, message := "Skipped - syncing from Roblox" }, g, member)) ∧
    (∀ (g : GlobalState) (member : Member) (conf : Bool) (rok : Bool),
      g.syncing_from_roblox = true →
      removeMemberFromRoblox g member true conf rok =
        ({ success := true, message := "Skipped - syncing from Roblox" }, g)) := by
  refine ⟨fun g conf roster roles maps db now err => ⟨rfl, rfl, rfl⟩, ?_, ?_, ?_⟩
  · intro g member conf maps remote h
    simp [syncMemberToRoblox, h]
  · intro g member conf ruid maps rok h
    simp [addMemberToRoblox, h]
  · intro g member conf rok h
    simp [removeMemberFromRoblox, h]

/-- C8 witness: concrete instances of every component, with the flag-raised
hypothesis discharged on `exGlobalOn`. -/
theorem reentrancyGuard_thm_witness :
    (syncFromRobloxRun exGlobalOff true [] [] [] (exDB [] 1) 0 none).1.final_flag = false ∧
    syncMemberToRoblox exGlobalOn (exLM 1 "cleo" (some "cleo") (some "5") "Commander")
        true true [] RemoteOutcome.ok =
      ({ success := true, message := "Skipped - syncing from Roblox" }, exGlobalOn) ∧
    addMemberToRoblox exGlobalOn (exLM 1 "cleo" (some "cleo") (some "5") "Commander")
        true true (some 5) [] true =
      ({ success := true, message := "Skipped - syncing from Roblox" }, exGlobalOn,
        exLM 1 "cleo" (some "cleo") (some "5") "Commander") ∧
    removeMemberFromRoblox exGlobalOn (exLM 1 "cleo" (some "cleo") (some "5") "Commander")
        true true true =
      ({ success := true, message := "Skipped - syncing from Roblox" }, exGlobalOn) :=
  ⟨(reentrancyGuard_thm.1 exGlobalOff true [] [] [] (exDB [] 1) 0 none).2.1,
   reentrancyGuard_thm.2.1 exGlobalOn _ true [] RemoteOutcome.ok rfl,
   reentrancyGuard_thm.2.2.1 exGlobalOn _ true (some 5) [] true rfl,
   reentrancyGuard_thm.2.2.2 exGlobalOn _ true true rfl⟩

/-! ## C9 — absent role mapping on the push path -/

/-- C9 counterexample. With no `RankMapping` row for the member's rank, the
lookup returns `None` and `sync_member_to_roblox` returns
`{'success': False, 'message': 'No role mapping found for rank: ...'}`: the
caller of the lookup does treat the absence as a failure result. -/
theorem roleMappingAbsenceFailure_cex :
    getRoleIdForRank [] "Commander" = none ∧
    (syncMemberToRoblox exGlobalOff (exLM 1 "cleo" (some "cleo") (some "5") "Commander")
        true true [] RemoteOutcome.ok).1.success = false ∧
    (syncMemberToRoblox exGlobalOff (exLM 1 "cleo" (some "cleo") (some "5") "Commander")
        true true [] RemoteOutcome.ok).1.message =
      "No role mapping found for rank: Commander" := by
  refine ⟨rfl, ?_, ?_⟩ <;> decide

/-- C9 (amended): `get_role_id_for_rank` returns absence (`None`) as an
ordinary value whenever no active mapping row exists for the rank — it raises
nothing. However, the push-to-remote caller `sync_member_to_roblox` does treat
that absence as a failure: it returns the failure result
`{'success': False, 'message': 'No role mapping found for rank: <rank>'}`
without contacting the remote provider (and without raising). -/
theorem roleMappingAbsence_amended :
    (∀ (maps : List RankMapping) (rank : String),
      (∀ m ∈ maps, ¬(m.system_rank = rank ∧ m.is_active = true)) →
      getRoleIdForRank maps rank = none) ∧
    (∀ (g : GlobalState) (member : Member) (maps : List RankMapping)
       (remote : RemoteOutcome),
      g.syncing_from_roblox = false →
      strTruthy member.roblox_id = true →
      getRoleIdForRank maps member.current_rank = none →
      syncMemberToRoblox g member true true maps remote =
        ({ success := false
           message := "No role mapping found for rank: " ++ member.current_rank }, g)) := by
  constructor
  · intro maps rank h
    unfold getRoleIdForRank
    have : maps.filter (fun m => m.system_rank == rank && m.is_active) = [] := by
      apply List.filter_eq_nil_iff.mpr
      intro m hm
      have := h m hm
      simp only [Bool.and_eq_true, beq_iff_eq]
      intro hc
      exact this ⟨hc.1, hc.2⟩
    rw [this]
    rfl
  · intro g member maps remote hflag hid hnone
    unfold syncMemberToRoblox
    rw [hflag, hid, hnone]
    simp [natOptTruthy]

/-- C9 witness: both components at concrete inputs, hypotheses discharged. -/
theorem roleMappingAbsence_amended_witness :
    getRoleIdForRank [] "Paladin" = none ∧
    syncMemberToRoblox exGlobalOff (exLM 2 "bea" (some "bea") (some "8") "Paladin")
        true true [] RemoteOutcome.ok =
      ({ success := false, message := "No role mapping found for rank: Paladin" },
        exGlobalOff) :=
  ⟨roleMappingAbsence_amended.1 [] "Paladin" (by intro m hm; simp at hm),
   roleMappingAbsence_amended.2 exGlobalOff (exLM 2 "bea" (some "bea") (some "8") "Paladin")
     [] RemoteOutcome.ok rfl (by decide) (by decide)⟩

/-- A dry-run `_update_existing_member` leaves the member row unchanged and
writes no promotion row; its statistics flags are those of the wet run. -/
theorem updateExistingMember_dry (m : Member) (rm : RobloxMember) (r : String) (now : Nat) :
    (updateExistingMember m rm r true now).member = m ∧
    (updateExistingMember m rm r true now).promotions = [] := by
  unfold updateExistingMember
  simp

/-- A dry-run `sync_all_members` processing step commits no storage change. -/
theorem processRobloxMember_dry (L : String → Option Nat) (now : Nat)
    (st : SyncerState) (rm : RobloxMember) :
    (processRobloxMember L true now st rm).members = st.members ∧
    (processRobloxMember L true now st rm).promotions = st.promotions ∧
    (processRobloxMember L true now st rm).next_id = st.next_id := by
  unfold processRobloxMember
  by_cases helig : isEligibleRank (mapRobloxRankToSystem rm.role_name) = true
  · simp only [helig, if_true]
    cases hl : L (strLower rm.username) with
    | some j =>
      simp only [hl]
      cases hg : st.members[j]? with
      | some dbm =>
        simp only [hg, (updateExistingMember_dry dbm rm (mapRobloxRankToSystem rm.role_name) now).1,
          (updateExistingMember_dry dbm rm (mapRobloxRankToSystem rm.role_name) now).2,
          set_getElem?_self st.members j dbm hg, List.append_nil]
        simp
      | none => simp only [hg]; simp
    | none =>
      simp only [hl, if_true]
      simp
  · simp only [Bool.not_eq_true] at helig
    simp only [helig, Bool.false_eq_true, if_false]
    simp

/-- The whole dry-run member loop commits no storage change. -/
theorem foldRobloxMembers_dry (L : String → Option Nat) (now : Nat) :
    ∀ (roster : List RobloxMember) (st : SyncerState),
      (roster.foldl (processRobloxMember L true now) st).members = st.members ∧
      (roster.foldl (processRobloxMember L true now) st).promotions = st.promotions ∧
      (roster.foldl (processRobloxMember L true now) st).next_id = st.next_id := by
  intro roster
  induction roster with
  | nil => intro st; exact ⟨rfl, rfl, rfl⟩
  | cons rm rest ih =>
    intro st
    rw [List.foldl_cons]
    obtain ⟨h1, h2, h3⟩ := ih (processRobloxMember L true now st rm)
    obtain ⟨g1, g2, g3⟩ := processRobloxMember_dry L now st rm
    exact ⟨h1.trans g1, h2.trans g2, h3.trans g3⟩

/-- A dry `sync_all_members` run commits no storage mutation at all. -/
theorem syncAllMembers_dry_state (roster : List RobloxMember) (db : DBState) (now : Nat) :
    (syncAllMembers roster db true now).2 = db := by
  unfold syncAllMembers
  by_cases hemp : roster.isEmpty = true
  · simp only [hemp, if_true]
  · simp only [hemp, Bool.false_eq_true, if_false]
    obtain ⟨h1, h2, h3⟩ := foldRobloxMembers_dry (dbUsernameIndex db.members) now roster _
    rw [h1, h2, h3]

/-- Parallel induction: when the roster contains no two entries with the same
lowercased username, the dry and wet member loops produce identical
statistics. -/
theorem foldStats_dry_wet (L : String → Option Nat) (M0 : List Member)
    (HL : ∀ k i, L k = some i → ∃ m, M0[i]? = some m ∧ activeUnameMatch m k = true)
    (now1 now2 : Nat) :
    ∀ (roster : List RobloxMember) (stw std : SyncerState),
      (roster.map (fun rm => strLower rm.username)).Nodup →
      std.members = M0 →
      stw.stats = std.stats →
      (∀ rm ∈ roster, ∀ j, L (strLower rm.username) = some j → stw.members[j]? = M0[j]?) →
      (roster.foldl (processRobloxMember L false now1) stw).stats =
        (roster.foldl (processRobloxMember L true now2) std).stats := by
  intro roster
  induction roster with
  | nil => intro stw std _ _ hstats _; exact hstats
  | cons rm rest ih =>
    intro stw std hnd hstd hstats H
    rw [List.foldl_cons, List.foldl_cons]
    have hndr : (rest.map (fun rm => strLower rm.username)).Nodup :=
      (List.nodup_cons.mp (by simpa using hnd)).2
    have hkey : strLower rm.username ∉ rest.map (fun rm => strLower rm.username) :=
      (List.nodup_cons.mp (by simpa using hnd)).1
    by_cases helig : isEligibleRank (mapRobloxRankToSystem rm.role_name) = true
    · cases hl : L (strLower rm.username) with
      | some j =>
        obtain ⟨m0, hm0, hmatch⟩ := HL _ _ hl
        have hwj : stw.members[j]? = some m0 := by rw [H rm (by simp) j hl]; exact hm0
        have hdj : std.members[j]? = some m0 := by rw [hstd]; exact hm0
        apply ih
        · exact hndr
        · -- the dry step leaves the member table at M0
          have := (processRobloxMember_dry L now2 std rm).1
          rw [this, hstd]
        · -- both steps add the same statistics deltas
          simp only [processRobloxMember, helig, hl, hwj, hdj, if_true]
          rw [hstats, updateExistingMember_rank_changed, updateExistingMember_rank_changed,
            updateExistingMember_changed, updateExistingMember_changed]
        · -- indices of yet-unprocessed keys are untouched by the wet step
          intro rm' hrm' j' hl'
          have hne : j' ≠ j := by
            intro hj
            subst hj
            obtain ⟨m0', hm0', hmatch'⟩ := HL _ _ hl'
            rw [hm0] at hm0'
            cases hm0'
            have e1 : unameLower m0 = strLower rm.username := by
              have h := hmatch
              simp only [activeUnameMatch, Bool.and_eq_true_iff, beq_iff_eq] at h
              exact h.2
            have e2 : unameLower m0 = strLower rm'.username := by
              have h := hmatch'
              simp only [activeUnameMatch, Bool.and_eq_true_iff, beq_iff_eq] at h
              exact h.2
            have ekey : strLower rm'.username = strLower rm.username := by rw [← e2, e1]
            apply hkey
            rw [← ekey]
            exact List.mem_map.mpr ⟨rm', hrm', rfl⟩
          simp only [processRobloxMember, helig, hl, hwj, if_true]
          rw [List.getElem?_set_ne (Ne.symm hne)]
          exact H rm' (by simp [hrm']) j' hl'
      | none =>
        apply ih
        · exact hndr
        · have := (processRobloxMember_dry L now2 std rm).1
          rw [this, hstd]
        · simp only [processRobloxMember, helig, hl, if_true]
          rw [hstats]
        · intro rm' hrm' j' hl'
          obtain ⟨m0', hm0', _⟩ := HL _ _ hl'
          have hstwj : stw.members[j']? = M0[j']? := H rm' (by simp [hrm']) j' hl'
          have hlt : j' < stw.members.length :=
            getElem?_some_lt (hstwj.trans hm0')
          simp only [processRobloxMember, helig, hl, if_true]
          simp only [Bool.false_eq_true, if_false]
          rw [List.getElem?_append_left hlt]
          exact hstwj
    · apply ih
      · exact hndr
      · have := (processRobloxMember_dry L now2 std rm).1
        rw [this, hstd]
      · simp only [Bool.not_eq_true] at helig
        simp only [processRobloxMember, helig, Bool.false_eq_true, if_false]
        rw [hstats]
      · intro rm' hrm' j' hl'
        simp only [Bool.not_eq_true] at helig
        simp only [processRobloxMember, helig, Bool.false_eq_true, if_false]
        exact H rm' (by simp [hrm']) j' hl'

/-- `Nat.toDigitsCore` never shrinks its accumulator. -/
theorem toDigitsCore_length_le (b : Nat) :
    ∀ (fuel n : Nat) (ds : List Char), ds.length ≤ (Nat.toDigitsCore b fuel n ds).length := by
  intro fuel
  induction fuel with
  | zero => intro n ds; simp [Nat.toDigitsCore]
  | succ f ih =>
    intro n ds
    rw [Nat.toDigitsCore]
    by_cases h : n / b = 0
    · simp [h]
    · simp only [h, if_false]
      have := ih (n / b) (Nat.digitChar (n % b) :: ds)
      simp only [List.length_cons] at this
      omega

/-- `str(user_id)` is never the empty string. -/
theorem natToString_ne_empty (n : Nat) : toString n ≠ "" := by
  show Nat.repr n ≠ ""
  unfold Nat.repr Nat.toDigits
  intro h
  have hd := congrArg String.data h
  have hlen : 1 ≤ (Nat.toDigitsCore 10 (n + 1) n []).length := by
    rw [Nat.toDigitsCore]
    by_cases hz : n / 10 = 0
    · simp [hz]
    · simp only [hz, if_false]
      have := toDigitsCore_length_le 10 n (n / 10) [Nat.digitChar (n % 10)]
      simp only [List.length_cons, List.length_nil] at this
      omega
  have : (Nat.toDigitsCore 10 (n + 1) n []).length = 0 := by
    have : (Nat.toDigitsCore 10 (n + 1) n []) = [] := hd
    rw [this]
    rfl
  omega

/-- `find?` returns the unique matching element. -/
theorem find?_eq_some_of_unique {α : Type} {p : α → Bool} :
    ∀ {l : List α} {x : α}, x ∈ l → p x = true → (∀ y ∈ l, p y = true → y = x) →
      l.find? p = some x := by
  intro l
  induction l with
  | nil => intro x hx; cases hx
  | cons a l ih =>
    intro x hx hp huniq
    by_cases ha : p a = true
    · have : a = x := huniq a (by simp) ha
      subst this
      simp [List.find?, ha]
    · simp only [Bool.not_eq_true] at ha
      rw [List.find?]
      rw [ha]
      have hxl : x ∈ l := by
        rcases List.mem_cons.mp hx with h | h
        · subst h; rw [hp] at ha; cases ha
        · exact h
      exact ih hxl hp (fun y hy => huniq y (by simp [hy]))

/-- A list all of whose elements are `a` and which contains `a` has
`getLast? = some a`. -/
theorem getLast?_eq_of_all_eq {α : Type} :
    ∀ {l : List α} {a : α}, a ∈ l → (∀ x ∈ l, x = a) → l.getLast? = some a := by
  intro l
  induction l with
  | nil => intro a ha; cases ha
  | cons b l ih =>
    intro a ha hall
    cases l with
    | nil =>
      have : b = a := hall b (by simp)
      subst this
      rfl
    | cons c l' =>
      have ha' : a ∈ c :: l' := by
        have : c = a := hall c (by simp)
        simp [this]
      rw [List.getLast?_cons_cons]
      exact ih ha' (fun x hx => hall x (by simp [hx]))

/-- Unfolding equation of `addsAfter` on a cons cell. -/
theorem addsAfter_cons (L : String → Option Nat) (now : Nat) (rm : RobloxMember)
    (rest : List RobloxMember) (n0 : Nat) :
    addsAfter L now (rm :: rest) n0 =
      if isEligibleRank (sysRank rm) && (L (rmKey rm)).isNone then
        newMemberFromRoblox rm (sysRank rm) now n0 :: addsAfter L now rest (n0 + 1)
      else addsAfter L now rest n0 := rfl

/-- Appending one roster member to `addsAfter`. -/
theorem addsAfter_append (L : String → Option Nat) (now : Nat) :
    ∀ (p : List RobloxMember) (rm : RobloxMember) (n0 : Nat),
      addsAfter L now (p ++ [rm]) n0 =
        addsAfter L now p n0 ++
          (if isEligibleRank (sysRank rm) && (L (rmKey rm)).isNone then
            [newMemberFromRoblox rm (sysRank rm) now (n0 + (addsAfter L now p n0).length)]
          else []) := by
  intro p
  induction p with
  | nil =>
    intro rm n0
    show addsAfter L now (rm :: []) n0 = _
    rw [addsAfter_cons]
    by_cases h : (isEligibleRank (sysRank rm) && (L (rmKey rm)).isNone) = true
    · rw [if_pos h, if_pos h]
      rfl
    · rw [if_neg h, if_neg h]
      rfl
  | cons rm' rest ih =>
    intro rm n0
    show addsAfter L now (rm' :: (rest ++ [rm])) n0 = _
    rw [addsAfter_cons, addsAfter_cons]
    by_cases h' : (isEligibleRank (sysRank rm') && (L (rmKey rm')).isNone) = true
    · rw [if_pos h', if_pos h', ih rm (n0 + 1)]
      rw [List.cons_append]
      have harith : n0 + 1 + (addsAfter L now rest (n0 + 1)).length =
          n0 + (newMemberFromRoblox rm' (sysRank rm') now n0 ::
            addsAfter L now rest (n0 + 1)).length := by
        rw [List.length_cons]
        omega
      rw [harith]
    · rw [if_neg h', if_neg h']
      exact ih rm n0

/-- Every row of `addsAfter` is the new-member row of some unmatched eligible
roster member. -/
theorem addsAfter_spec (L : String → Option Nat) (now : Nat) :
    ∀ (p : List RobloxMember) (n0 : Nat) (j : Nat) (m : Member),
      (addsAfter L now p n0)[j]? = some m →
      ∃ rm ∈ p, isEligibleRank (sysRank rm) = true ∧ L (rmKey rm) = none ∧
        ∃ id, m = newMemberFromRoblox rm (sysRank rm) now id := by
  intro p
  induction p with
  | nil => intro n0 j m h; simp [addsAfter] at h
  | cons rm rest ih =>
    intro n0 j m h
    rw [addsAfter_cons] at h
    by_cases hc : (isEligibleRank (sysRank rm) && (L (rmKey rm)).isNone) = true
    · rw [if_pos hc] at h
      obtain ⟨he, hn⟩ := Bool.and_eq_true_iff.mp hc
      cases j with
      | zero =>
        simp only [List.getElem?_cons_zero, Option.some.injEq] at h
        exact ⟨rm, by simp, he, Option.isNone_iff_eq_none.mp hn, n0, h.symm⟩
      | succ j' =>
        simp only [List.getElem?_cons_succ] at h
        obtain ⟨rm', hmem, h1, h2, id', h3⟩ := ih (n0 + 1) j' m h
        exact ⟨rm', by simp [hmem], h1, h2, id', h3⟩
    · rw [if_neg hc] at h
      obtain ⟨rm', hmem, h1, h2, id', h3⟩ := ih n0 j m h
      exact ⟨rm', by simp [hmem], h1, h2, id', h3⟩

/-- The unmatched eligible roster member's new row is present in
`addsAfter`. -/
theorem addsAfter_mem (L : String → Option Nat) (now : Nat) :
    ∀ (p : List RobloxMember) (n0 : Nat) (rm : RobloxMember), rm ∈ p →
      isEligibleRank (sysRank rm) = true → L (rmKey rm) = none →
      ∃ (j id : Nat), (addsAfter L now p n0)[j]? =
        some (newMemberFromRoblox rm (sysRank rm) now id) := by
  intro p
  induction p with
  | nil => intro n0 rm h; cases h
  | cons rm' rest ih =>
    intro n0 rm hmem he hn
    by_cases hc : (isEligibleRank (sysRank rm') && (L (rmKey rm')).isNone) = true
    · rcases List.mem_cons.mp hmem with h | h
      · subst h
        exact ⟨0, n0, by rw [addsAfter_cons, if_pos hc]; simp⟩
      · obtain ⟨j, id, hj⟩ := ih (n0 + 1) rm h he hn
        refine ⟨j + 1, id, ?_⟩
        rw [addsAfter_cons, if_pos hc]
        simpa using hj
    · rcases List.mem_cons.mp hmem with h | h
      · subst h
        rw [he, hn] at hc
        simp at hc
      · obtain ⟨j, id, hj⟩ := ih n0 rm h he hn
        refine ⟨j, id, ?_⟩
        rw [addsAfter_cons, if_neg hc]
        exact hj

/-- A roster member that does not update index `j` does not alter `coreVal`. -/
theorem coreVal_append_not_match (L : String → Option Nat) (now : Nat)
    (p : List RobloxMember) (rm : RobloxMember) (m0 : Member) (j : Nat)
    (h : matchesIdx L j rm = false) :
    coreVal L now (p ++ [rm]) m0 j = coreVal L now p m0 j := by
  unfold coreVal
  rw [List.find?_append]
  cases hf : p.find? (matchesIdx L j) with
  | some rm' => rfl
  | none => simp [List.find?, h]

/-- The roster member that updates index `j`, when no earlier one does,
determines `coreVal`. -/
theorem coreVal_append_match (L : String → Option Nat) (now : Nat)
    (p : List RobloxMember) (rm : RobloxMember) (m0 : Member) (j : Nat)
    (hm : matchesIdx L j rm = true) (hnone : p.find? (matchesIdx L j) = none) :
    coreVal L now (p ++ [rm]) m0 j =
      (updateExistingMember m0 rm (sysRank rm) false now).member := by
  unfold coreVal
  rw [List.find?_append, hnone]
  simp [List.find?, hm]

/-- With pairwise-distinct roster keys, no member of `p` can update the index
that `rm`'s key resolves to. -/
theorem find?_matchesIdx_none {L : String → Option Nat} {M0 : List Member}
    (HL : ∀ k i, L k = some i → ∃ m, M0[i]? = some m ∧ activeUnameMatch m k = true)
    {p : List RobloxMember} {rm : RobloxMember} {i : Nat}
    (hl : L (rmKey rm) = some i) (hkeynot : rmKey rm ∉ p.map rmKey) :
    p.find? (matchesIdx L i) = none := by
  cases hf : p.find? (matchesIdx L i) with
  | none => rfl
  | some rm' =>
    exfalso
    have hp := List.find?_some hf
    have hmem := List.mem_of_find?_eq_some hf
    have hl' : L (rmKey rm') = some i := by
      unfold matchesIdx at hp
      obtain ⟨_, h2⟩ := Bool.and_eq_true_iff.mp hp
      simpa using h2
    obtain ⟨m, hm, hma⟩ := HL _ _ hl
    obtain ⟨m', hm', hma'⟩ := HL _ _ hl'
    rw [hm] at hm'
    cases hm'
    have e1 : unameLower m = rmKey rm := by
      have h := hma
      simp only [activeUnameMatch, Bool.and_eq_true_iff, beq_iff_eq] at h
      exact h.2
    have e2 : unameLower m = rmKey rm' := by
      have h := hma'
      simp only [activeUnameMatch, Bool.and_eq_true_iff, beq_iff_eq] at h
      exact h.2
    exact hkeynot (List.mem_map.mpr ⟨rm', hmem, by rw [← e2, e1]⟩)

/-- Closed-form characterization of the wet `sync_all_members` member loop
over a roster with pairwise-distinct lowercased usernames: every initial index
holds its `coreVal`, the appended rows are exactly `addsAfter`, and the
promotion log grows by exactly `promosAfter`. -/
theorem foldWet_master (L : String → Option Nat) (M0 : List Member)
    (HL : ∀ k i, L k = some i → ∃ m, M0[i]? = some m ∧ activeUnameMatch m k = true)
    (now : Nat) :
    ∀ (roster : List RobloxMember) (st0 : SyncerState), st0.members = M0 →
      (roster.map rmKey).Nodup →
      (∀ j m0, M0[j]? = some m0 →
        (roster.foldl (processRobloxMember L false now) st0).members[j]? =
          some (coreVal L now roster m0 j)) ∧
      (roster.foldl (processRobloxMember L false now) st0).members.length =
        M0.length + (addsAfter L now roster st0.next_id).length ∧
      (roster.foldl (processRobloxMember L false now) st0).members.drop M0.length =
        addsAfter L now roster st0.next_id ∧
      (roster.foldl (processRobloxMember L false now) st0).promotions =
        st0.promotions ++ promosAfter L roster M0 ∧
      (roster.foldl (processRobloxMember L false now) st0).next_id =
        st0.next_id + (addsAfter L now roster st0.next_id).length := by
  intro roster
  induction roster using List.reverseRecOn with
  | nil =>
    intro st0 hst0 _
    refine ⟨?_, ?_, ?_, ?_, ?_⟩ <;>
      simp [addsAfter, promosAfter, coreVal, List.find?, hst0]
  | append_singleton p rm ih =>
    intro st0 hst0 hnd
    have hndp : (p.map rmKey).Nodup := by
      rw [List.map_append] at hnd
      exact (List.nodup_append.mp hnd).1
    have hkeynot : rmKey rm ∉ p.map rmKey := by
      rw [List.map_append] at hnd
      intro hmem
      exact (List.nodup_append.mp hnd).2.2 hmem (by simp)
    obtain ⟨ihA, ihLen, ihDrop, ihProm, ihNext⟩ := ih st0 hst0 hndp
    simp only [List.foldl_append, List.foldl_cons, List.foldl_nil]
    by_cases helig : isEligibleRank (sysRank rm) = true
    · have heligm : isEligibleRank (mapRobloxRankToSystem rm.role_name) = true := helig
      cases hl : L (rmKey rm) with
      | none =>
        have hlm : L (strLower rm.username) = none := hl
        have hstep : ∀ st : SyncerState,
            (processRobloxMember L false now st rm).members =
              st.members ++ [newMemberFromRoblox rm (sysRank rm) now st.next_id] ∧
            (processRobloxMember L false now st rm).promotions = st.promotions ∧
            (processRobloxMember L false now st rm).next_id = st.next_id + 1 := by
          intro st
          unfold processRobloxMember
          simp only [heligm, if_true, hlm]
          simp [sysRank]
        obtain ⟨hs1, hs2, hs3⟩ := hstep (p.foldl (processRobloxMember L false now) st0)
        have hadds := addsAfter_append L now p rm st0.next_id
        rw [helig, hl] at hadds
        simp only [Option.isNone_none, Bool.and_true, Bool.true_and, if_true] at hadds
        have hproms : promosAfter L (p ++ [rm]) M0 = promosAfter L p M0 := by
          unfold promosAfter
          rw [List.filterMap_append]
          simp [helig, hl]
        refine ⟨?_, ?_, ?_, ?_, ?_⟩
        · intro j m0 hm0
          have hco := ihA j m0 hm0
          rw [hs1, List.getElem?_append_left (getElem?_some_lt hco), hco,
            coreVal_append_not_match]
          unfold matchesIdx
          rw [hl]
          simp
        · rw [hs1, List.length_append, ihLen, hadds]
          simp only [List.length_append, List.length_cons, List.length_nil]
          omega
        · rw [hs1, List.drop_append_of_le_length (by omega), ihDrop, hadds, ihNext]
        · rw [hs2, ihProm, hproms]
        · rw [hs3, ihNext, hadds]
          simp only [List.length_append, List.length_cons, List.length_nil]
          omega
      | some i =>
        have hlm : L (strLower rm.username) = some i := hl
        obtain ⟨m0i, hm0i, hmai⟩ := HL _ _ hl
        have hfindp : p.find? (matchesIdx L i) = none := find?_matchesIdx_none HL hl hkeynot
        have hmatch : matchesIdx L i rm = true := by
          unfold matchesIdx
          rw [helig, hl]
          simp
        have hcur : (p.foldl (processRobloxMember L false now) st0).members[i]? =
            some m0i := by
          rw [ihA i m0i hm0i]
          unfold coreVal
          rw [hfindp]
        have hstep : ∀ st : SyncerState, st.members[i]? = some m0i →
            (processRobloxMember L false now st rm).members =
              st.members.set i (updateExistingMember m0i rm (sysRank rm) false now).member ∧
            (processRobloxMember L false now st rm).promotions =
              st.promotions ++ (updateExistingMember m0i rm (sysRank rm) false now).promotions ∧
            (processRobloxMember L false now st rm).next_id = st.next_id := by
          intro st hsti
          unfold processRobloxMember
          simp only [heligm, if_true, hlm, hsti]
          simp [sysRank]
        obtain ⟨hs1, hs2, hs3⟩ := hstep (p.foldl (processRobloxMember L false now) st0) hcur
        have hadds : addsAfter L now (p ++ [rm]) st0.next_id =
            addsAfter L now p st0.next_id := by
          rw [addsAfter_append]
          rw [hl]
          simp
        have hproms : promosAfter L (p ++ [rm]) M0 =
            promosAfter L p M0 ++
              (updateExistingMember m0i rm (sysRank rm) false now).promotions := by
          unfold promosAfter
          rw [List.filterMap_append]
          simp only [List.filterMap_cons, List.filterMap_nil]
          rw [helig]
          simp only [if_true]
          simp only [hl, hm0i]
          rw [updateExistingMember_promotions]
          by_cases hr : m0i.current_rank = sysRank rm
          · simp [hr, Option.bind]
          · have hbr : (m0i.current_rank == sysRank rm) = false := beq_eq_false_iff_ne.mpr hr
            simp [hbr, hr, Option.bind]
        have hlti : i < M0.length := getElem?_some_lt hm0i
        refine ⟨?_, ?_, ?_, ?_, ?_⟩
        · intro j m0 hm0
          by_cases hji : j = i
          · subst hji
            rw [hm0i] at hm0
            cases hm0
            rw [hs1, List.getElem?_set_eq_of_lt _ (getElem?_some_lt hcur),
              coreVal_append_match L now p rm m0i j hmatch hfindp]
          · rw [hs1, List.getElem?_set_ne (Ne.symm hji), ihA j m0 hm0,
              coreVal_append_not_match]
            unfold matchesIdx
            rw [hl]
            have hib : (some i == some j) = false := by
              simp only [beq_eq_false_iff_ne]
              intro hc
              cases hc
              exact hji rfl
            rw [hib]
            simp
        · rw [hs1, List.length_set, ihLen, hadds]
        · rw [hs1, List.drop_set_of_lt _ _ hlti, ihDrop, hadds]
        · rw [hs2, ihProm, hproms, List.append_assoc]
        · rw [hs3, ihNext, hadds]
    · simp only [Bool.not_eq_true] at helig
      have heligm : isEligibleRank (mapRobloxRankToSystem rm.role_name) = false := helig
      have hstep :
          (processRobloxMember L false now
              (p.foldl (processRobloxMember L false now) st0) rm).members =
            (p.foldl (processRobloxMember L false now) st0).members ∧
          (processRobloxMember L false now
              (p.foldl (processRobloxMember L false now) st0) rm).promotions =
            (p.foldl (processRobloxMember L false now) st0).promotions ∧
          (processRobloxMember L false now
              (p.foldl (processRobloxMember L false now) st0) rm).next_id =
            (p.foldl (processRobloxMember L false now) st0).next_id := by
        unfold processRobloxMember
        simp only [heligm, Bool.false_eq_true, if_false]
        simp
      obtain ⟨hs1, hs2, hs3⟩ := hstep
      have hadds : addsAfter L now (p ++ [rm]) st0.next_id =
          addsAfter L now p st0.next_id := by
        rw [addsAfter_append, helig]
        simp
      have hproms : promosAfter L (p ++ [rm]) M0 = promosAfter L p M0 := by
        unfold promosAfter
        rw [List.filterMap_append]
        simp [helig]
      refine ⟨?_, ?_, ?_, ?_, ?_⟩
      · intro j m0 hm0
        rw [hs1, ihA j m0 hm0, coreVal_append_not_match]
        unfold matchesIdx
        rw [helig]
        simp
      · rw [hs1, ihLen, hadds]
      · rw [hs1, ihDrop, hadds]
      · rw [hs2, ihProm, hproms]
      · rw [hs3, ihNext, hadds]

/-- Two member tables whose per-index key occupancy agrees (with nothing
extra matching in the longer one) resolve the username dict identically. -/
theorem dbUsernameIndex_congr (ms' ms : List Member) (k : String)
    (hlen : ms.length ≤ ms'.length)
    (hlow : ∀ j, j < ms.length → memberMatchAt ms' k j = memberMatchAt ms k j)
    (hhigh : ∀ j, ms.length ≤ j → memberMatchAt ms' k j = false) :
    dbUsernameIndex ms' k = dbUsernameIndex ms k := by
  unfold dbUsernameIndex
  have hlen' : ms'.length = ms.length + (ms'.length - ms.length) := by omega
  rw [hlen', List.range_add, List.filter_append]
  have h2 : ((List.range (ms'.length - ms.length)).map (ms.length + ·)).filter
      (memberMatchAt ms' k) = [] := by
    apply List.filter_eq_nil_iff.mpr
    intro j hj
    obtain ⟨x, _, hxe⟩ := List.mem_map.mp hj
    subst hxe
    rw [hhigh (ms.length + x) (by omega)]
    simp
  rw [h2, List.append_nil]
  rw [List.filter_congr (fun j hj => hlow j (List.mem_range.mp hj))]

/-- An absent key matches no index at all. -/
theorem dbUsernameIndex_none_match {ms : List Member} {k : String}
    (h : dbUsernameIndex ms k = none) : ∀ j, memberMatchAt ms k j = false := by
  intro j
  by_cases hj : j < ms.length
  · by_contra hc
    rw [Bool.not_eq_false] at hc
    have hmem : j ∈ (List.range ms.length).filter (memberMatchAt ms k) :=
      List.mem_filter.mpr ⟨List.mem_range.mpr hj, hc⟩
    unfold dbUsernameIndex at h
    rw [List.getLast?_eq_none_iff.mp h] at hmem
    cases hmem
  · unfold memberMatchAt
    rw [List.getElem?_eq_none (by omega)]

/-- When exactly one index matches the key, the dict resolves to it. -/
theorem dbUsernameIndex_eq_of_unique {ms : List Member} {k : String} {j : Nat}
    (hj : j < ms.length) (hmatch : memberMatchAt ms k j = true)
    (huniq : ∀ j', memberMatchAt ms k j' = true → j' = j) :
    dbUsernameIndex ms k = some j := by
  unfold dbUsernameIndex
  exact getLast?_eq_of_all_eq
    (List.mem_filter.mpr ⟨List.mem_range.mpr hj, hmatch⟩)
    (fun x hx => huniq x (List.of_mem_filter hx))

/-- Dict occupancy of the row produced by a wet `_update_existing_member`. -/
theorem activeUnameMatch_update (m0 : Member) (rm : RobloxMember) (r : String)
    (now : Nat) (k : String) :
    activeUnameMatch ((updateExistingMember m0 rm r false now).member) k =
      (m0.is_active && !(rm.username == "") && (strLower rm.username == k)) := by
  rw [updateExistingMember_member]
  rfl

/-- Dict occupancy of a freshly created member row. -/
theorem activeUnameMatch_new (rm : RobloxMember) (r : String) (now id : Nat) (k : String) :
    activeUnameMatch (newMemberFromRoblox rm r now id) k =
      (!(rm.username == "") && (strLower rm.username == k)) := by
  rfl

/-- A wet pass does not change which initial index occupies a key, as long as
every roster username is nonempty. -/
theorem matchAt_coreVal {L : String → Option Nat} {M0 : List Member}
    (HL : ∀ k i, L k = some i → ∃ m, M0[i]? = some m ∧ activeUnameMatch m k = true)
    {roster : List RobloxMember} (hnm : ∀ rm ∈ roster, rm.username ≠ "")
    (now : Nat) (k : String) {j : Nat} {m0 : Member} (hm0 : M0[j]? = some m0) :
    activeUnameMatch (coreVal L now roster m0 j) k = activeUnameMatch m0 k := by
  unfold coreVal
  cases hf : roster.find? (matchesIdx L j) with
  | none => rfl
  | some rm' =>
    have hp := List.find?_some hf
    have hmem := List.mem_of_find?_eq_some hf
    unfold matchesIdx at hp
    obtain ⟨_, h2⟩ := Bool.and_eq_true_iff.mp hp
    have hl' : L (rmKey rm') = some j := by simpa using h2
    obtain ⟨m0', hm0', hma'⟩ := HL _ _ hl'
    rw [hm0] at hm0'
    cases hm0'
    have hfacts := hma'
    simp only [activeUnameMatch, Bool.and_eq_true_iff, beq_iff_eq] at hfacts
    obtain ⟨⟨hact, htru⟩, hk⟩ := hfacts
    rw [activeUnameMatch_update]
    have hne : (rm'.username == "") = false := beq_eq_false_iff_ne.mpr (hnm rm' hmem)
    unfold activeUnameMatch
    rw [hact, htru, hne]
    have hkk : strLower rm'.username = unameLower m0 := by rw [hk]; rfl
    rw [hkk]
    simp

/-- The keys of the appended rows form a sublist of the roster keys. -/
theorem addsAfter_unameLower_sublist (L : String → Option Nat) (now : Nat) :
    ∀ (p : List RobloxMember) (n0 : Nat),
      ((addsAfter L now p n0).map unameLower).Sublist (p.map rmKey) := by
  intro p
  induction p with
  | nil => intro n0; simp [addsAfter]
  | cons rm rest ih =>
    intro n0
    rw [addsAfter_cons]
    by_cases hc : (isEligibleRank (sysRank rm) && (L (rmKey rm)).isNone) = true
    · rw [if_pos hc]
      simp only [List.map_cons]
      have hkey : unameLower (newMemberFromRoblox rm (sysRank rm) now n0) = rmKey rm := rfl
      rw [hkey]
      exact (ih (n0 + 1)).cons₂ _
    · rw [if_neg hc]
      simp only [List.map_cons]
      exact (ih n0).cons _

/-- The wet member loop leaves the member table synchronized with every
eligible roster entry (distinct nonempty usernames). -/
theorem foldWet_establishes_synced (M0 : List Member) (P0 : List PromotionLog)
    (n0 : Nat) (s0 : SyncStats) (roster : List RobloxMember) (now : Nat)
    (hnd : (roster.map rmKey).Nodup)
    (hnm : ∀ rm ∈ roster, rm.username ≠ "") :
    Synced roster ((roster.foldl (processRobloxMember (dbUsernameIndex M0) false now)
      { members := M0, promotions := P0, next_id := n0, stats := s0 }).members) := by
  intro rm hrm helig
  have HL : ∀ k i, dbUsernameIndex M0 k = some i →
      ∃ m, M0[i]? = some m ∧ activeUnameMatch m k = true :=
    fun k i h => dbUsernameIndex_spec h
  obtain ⟨mA, mLen, mDrop, mProm, mNext⟩ :=
    foldWet_master (dbUsernameIndex M0) M0 HL now roster
      { members := M0, promotions := P0, next_id := n0, stats := s0 } rfl hnd
  dsimp only at mLen mDrop mNext
  set F := roster.foldl (processRobloxMember (dbUsernameIndex M0) false now)
      { members := M0, promotions := P0, next_id := n0, stats := s0 } with hFdef
  -- shared facts about the final table's key occupancy
  have hlow : ∀ j, j < M0.length →
      memberMatchAt F.members (rmKey rm) j = memberMatchAt M0 (rmKey rm) j := by
    intro j hj
    have hj0 : M0[j]? = some M0[j] := List.getElem?_eq_getElem hj
    unfold memberMatchAt
    rw [mA j _ hj0, hj0]
    exact matchAt_coreVal HL hnm now (rmKey rm) hj0
  have hhigh_char : ∀ j, M0.length ≤ j → j < F.members.length →
      ∃ m, F.members[j]? = some m ∧
        ∃ rm'' ∈ roster, isEligibleRank (sysRank rm'') = true ∧
          dbUsernameIndex M0 (rmKey rm'') = none ∧
          ∃ id, m = newMemberFromRoblox rm'' (sysRank rm'') now id := by
    intro j hj1 hj2
    have : F.members[j]? = (addsAfter (dbUsernameIndex M0) now roster n0)[j - M0.length]? := by
      rw [← mDrop, List.getElem?_drop]
      congr 1
      omega
    cases hg : F.members[j]? with
    | none =>
      exfalso
      rw [List.getElem?_eq_getElem hj2] at hg
      cases hg
    | some m =>
      rw [hg] at this
      obtain ⟨rm'', hmem'', h1, h2, id'', h3⟩ := addsAfter_spec _ now roster n0 _ m this.symm
      exact ⟨m, rfl, rm'', hmem'', h1, h2, id'', h3⟩
  cases hl : dbUsernameIndex M0 (rmKey rm) with
  | some i =>
    obtain ⟨m0, hm0, hma⟩ := HL _ _ hl
    have hfind : roster.find? (matchesIdx (dbUsernameIndex M0) i) = some rm := by
      apply find?_eq_some_of_unique hrm
      · unfold matchesIdx
        rw [helig, hl]
        simp
      · intro y hy hpy
        unfold matchesIdx at hpy
        obtain ⟨_, h2⟩ := Bool.and_eq_true_iff.mp hpy
        have hly : dbUsernameIndex M0 (rmKey y) = some i := by simpa using h2
        obtain ⟨my, hmy, hmay⟩ := HL _ _ hly
        rw [hm0] at hmy
        cases hmy
        have ey : unameLower m0 = rmKey y := by
          have h := hmay
          simp only [activeUnameMatch, Bool.and_eq_true_iff, beq_iff_eq] at h
          exact h.2
        have erm : unameLower m0 = rmKey rm := by
          have h := hma
          simp only [activeUnameMatch, Bool.and_eq_true_iff, beq_iff_eq] at h
          exact h.2
        exact List.inj_on_of_nodup_map hnd hy hrm (by rw [← ey, erm])
    have hfin : F.members[i]? =
        some ((updateExistingMember m0 rm (sysRank rm) false now).member) := by
      rw [mA i m0 hm0]
      unfold coreVal
      rw [hfind]
    refine ⟨i, (updateExistingMember m0 rm (sysRank rm) false now).member, ?_, hfin, ?_, ?_, ?_⟩
    · -- the lookup still resolves to i
      rw [dbUsernameIndex_congr F.members M0 (rmKey rm) (by omega) hlow ?_]
      · exact hl
      · intro j hj
        by_cases hj2 : j < F.members.length
        · obtain ⟨m, hgm, rm'', hmem'', _, hnone'', id'', hm''⟩ := hhigh_char j hj hj2
          unfold memberMatchAt
          simp only [hgm]
          rw [hm'', activeUnameMatch_new]
          have : (strLower rm''.username == rmKey rm) = false := by
            apply beq_eq_false_iff_ne.mpr
            intro hc
            rw [show strLower rm''.username = rmKey rm'' from rfl] at hc
            rw [hc] at hnone''
            rw [hl] at hnone''
            cases hnone''
          rw [this]
          simp
        · unfold memberMatchAt
          rw [List.getElem?_eq_none (by omega)]
    · rw [updateExistingMember_member]
    · rw [updateExistingMember_member]
      by_cases ht : strTruthy m0.roblox_id = true
      · simp only [ht, if_true]
      · simp only [Bool.not_eq_true] at ht
        simp only [ht, Bool.false_eq_true, if_false]
        unfold strTruthy
        have := natToString_ne_empty rm.user_id
        simp [this]
    · rw [updateExistingMember_member]
  | none =>
    obtain ⟨pos, id, hpos⟩ := addsAfter_mem (dbUsernameIndex M0) now roster
      n0 rm hrm helig hl
    have hfin : F.members[M0.length + pos]? =
        some (newMemberFromRoblox rm (sysRank rm) now id) := by
      rw [← List.getElem?_drop, mDrop]
      exact hpos
    have hjlt : M0.length + pos < F.members.length := getElem?_some_lt hfin
    have hnodadds : ((addsAfter (dbUsernameIndex M0) now roster n0).map
        unameLower).Nodup :=
      (addsAfter_unameLower_sublist (dbUsernameIndex M0) now roster n0).nodup hnd
    refine ⟨M0.length + pos, newMemberFromRoblox rm (sysRank rm) now id, ?_, hfin, rfl, ?_, rfl⟩
    · apply dbUsernameIndex_eq_of_unique hjlt
      · unfold memberMatchAt
        simp only [hfin]
        rw [activeUnameMatch_new]
        have h1 : (rm.username == "") = false := beq_eq_false_iff_ne.mpr (hnm rm hrm)
        have h2 : (strLower rm.username == rmKey rm) = true := by
          rw [show strLower rm.username = rmKey rm from rfl]
          simp
        rw [h1, h2]
        rfl
      · intro j' hj'
        by_cases hlow' : j' < M0.length
        · exfalso
          rw [hlow j' hlow'] at hj'
          rw [dbUsernameIndex_none_match hl j'] at hj'
          cases hj'
        · have hj2 : j' < F.members.length := by
            by_contra hc
            unfold memberMatchAt at hj'
            rw [List.getElem?_eq_none (by omega)] at hj'
            cases hj'
          obtain ⟨m, hgm, rm'', hmem'', _, hnone'', id'', hm''⟩ :=
            hhigh_char j' (by omega) hj2
          -- the matching appended row has key `rmKey rm` too
          unfold memberMatchAt at hj'
          simp only [hgm] at hj'
          rw [hm'', activeUnameMatch_new] at hj'
          obtain ⟨_, hkey''⟩ := Bool.and_eq_true_iff.mp hj'
          have hkeq : unameLower m = rmKey rm := by
            rw [hm'']
            show strLower rm''.username = rmKey rm
            simpa using hkey''
          have hkeqstar : unameLower (newMemberFromRoblox rm (sysRank rm) now id) = rmKey rm := rfl
          -- both rows sit in the adds region with the same key; keys there are nodup
          have hg1 : ((addsAfter (dbUsernameIndex M0) now roster n0).map
              unameLower)[j' - M0.length]? = some (rmKey rm) := by
            rw [List.getElem?_map, ← mDrop, List.getElem?_drop]
            have : M0.length + (j' - M0.length) = j' := by omega
            rw [this, hgm]
            simp [hkeq]
          have hg2 : ((addsAfter (dbUsernameIndex M0) now roster n0).map
              unameLower)[pos]? = some (rmKey rm) := by
            rw [List.getElem?_map, hpos]
            simp [hkeqstar]
          have hlt1 : j' - M0.length <
              ((addsAfter (dbUsernameIndex M0) now roster n0).map
                unameLower).length := getElem?_some_lt hg1
          have := List.getElem?_inj hlt1 hnodadds (hg1.trans hg2.symm)
          omega
    · show strTruthy (some (toString rm.user_id)) = true
      simp only [strTruthy]
      rw [beq_eq_false_iff_ne.mpr (natToString_ne_empty rm.user_id)]
      rfl


/-- A wet `sync_all_members` pass leaves the member table synchronized with
every eligible roster entry (distinct nonempty usernames). -/
theorem syncAllMembers_establishes_synced (roster : List RobloxMember) (db : DBState)
    (now : Nat) (hnd : (roster.map rmKey).Nodup)
    (hnm : ∀ rm ∈ roster, rm.username ≠ "") :
    Synced roster (syncAllMembers roster db false now).2.members := by
  unfold syncAllMembers
  by_cases hemp : roster.isEmpty = true
  · intro rm hrm
    rw [List.isEmpty_iff.mp hemp] at hrm
    cases hrm
  · simp only [hemp, Bool.false_eq_true, if_false]
    exact foldWet_establishes_synced db.members db.promotions db.next_id _ roster now hnd hnm

/-- Members with equal `clearLU` images share every field except possibly
`last_updated`. -/
theorem clearLU_fields {a b : Member} (h : clearLU a = clearLU b) :
    a.id = b.id ∧ a.discord_username = b.discord_username ∧
    a.roblox_username = b.roblox_username ∧ a.roblox_id = b.roblox_id ∧
    a.current_rank = b.current_rank ∧ a.join_date = b.join_date ∧
    a.is_active = b.is_active := by
  cases a
  cases b
  unfold clearLU at h
  simp only [Member.mk.injEq] at h ⊢
  simp_all

/-- Pointwise consequence of `MembersEqMod`. -/
theorem membersEqMod_getElem? {xs ys : List Member} (h : MembersEqMod xs ys) (i : Nat) :
    (xs[i]?).map clearLU = (ys[i]?).map clearLU := by
  unfold MembersEqMod at h
  rw [← List.getElem?_map, ← List.getElem?_map, h]

/-- Setting an index to a row with the same `clearLU` image preserves
`MembersEqMod`. -/
theorem membersEqMod_set {xs ys : List Member} (h : MembersEqMod xs ys) (i : Nat)
    (a : Member) (ha : (ys[i]?).map clearLU = some (clearLU a)) :
    MembersEqMod (xs.set i a) ys := by
  unfold MembersEqMod at *
  rw [List.map_set, h]
  apply set_getElem?_self
  rw [List.getElem?_map]
  exact ha

/-- On a table synchronized with the roster, a second wet member loop adds
nothing, updates nothing, and changes no rank. -/
theorem foldSecondRun (L2 : String → Option Nat) (DB1 : List Member) (now : Nat) :
    ∀ (roster : List RobloxMember) (st : SyncerState),
      (∀ rm ∈ roster, isEligibleRank (sysRank rm) = true →
        ∃ i m, L2 (rmKey rm) = some i ∧ DB1[i]? = some m ∧
          m.current_rank = sysRank rm ∧ strTruthy m.roblox_id = true ∧
          m.roblox_username = some rm.username) →
      MembersEqMod st.members DB1 →
      (roster.foldl (processRobloxMember L2 false now) st).stats.members_added =
        st.stats.members_added ∧
      (roster.foldl (processRobloxMember L2 false now) st).stats.members_updated =
        st.stats.members_updated ∧
      (roster.foldl (processRobloxMember L2 false now) st).stats.ranks_changed =
        st.stats.ranks_changed := by
  intro roster
  induction roster with
  | nil => intro st _ _; exact ⟨rfl, rfl, rfl⟩
  | cons rm rest ih =>
    intro st hsync heq
    rw [List.foldl_cons]
    by_cases helig : isEligibleRank (sysRank rm) = true
    · have heligm : isEligibleRank (mapRobloxRankToSystem rm.role_name) = true := helig
      obtain ⟨i, m, hl2, hdb1, hrank, hid, hun⟩ := hsync rm (by simp) helig
      have hl2m : L2 (strLower rm.username) = some i := hl2
      have hmod := membersEqMod_getElem? heq i
      rw [hdb1] at hmod
      cases hsm : st.members[i]? with
      | none => rw [hsm] at hmod; cases hmod
      | some m' =>
        rw [hsm] at hmod
        simp only [Option.map_some'] at hmod
        have hclear : clearLU m' = clearLU m := Option.some.inj hmod
        obtain ⟨hfid, hfdn, hfun, hfrid, hfrank, hfjd, hfact⟩ := clearLU_fields hclear
        have hstep : ∀ s : SyncerState, s.members[i]? = some m' →
            processRobloxMember L2 false now s rm =
              { members := s.members.set i
                  (updateExistingMember m' rm (sysRank rm) false now).member
                promotions := s.promotions ++
                  (updateExistingMember m' rm (sysRank rm) false now).promotions
                next_id := s.next_id
                stats := { s.stats with
                  eligible_roblox_members := s.stats.eligible_roblox_members + 1
                  ranks_changed := s.stats.ranks_changed +
                    (if (updateExistingMember m' rm (sysRank rm) false now).rank_changed then 1 else 0)
                  members_updated := s.stats.members_updated +
                    (if (updateExistingMember m' rm (sysRank rm) false now).changed then 1 else 0) } } := by
          intro s hsi
          unfold processRobloxMember
          simp only [heligm, if_true, hl2m, hsi]
          simp [sysRank]
        have hrankb : (m'.current_rank == sysRank rm) = true := by
          rw [hfrank, hrank]
          simp
        have hidb : strTruthy m'.roblox_id = true := by rw [hfrid]; exact hid
        have hunb : (m'.roblox_username == some rm.username) = true := by
          rw [hfun, hun]
          simp
        have hchanged : (updateExistingMember m' rm (sysRank rm) false now).changed = false := by
          rw [updateExistingMember_changed, hrankb, hidb, hunb]
          rfl
        have hrankch : (updateExistingMember m' rm (sysRank rm) false now).rank_changed = false := by
          rw [updateExistingMember_rank_changed, hrankb]
          rfl
        have hm4 : clearLU (updateExistingMember m' rm (sysRank rm) false now).member =
            clearLU m := by
          rw [updateExistingMember_member]
          rw [← hclear]
          unfold clearLU
          simp only [hidb, if_true]
          have h1 : m'.current_rank = sysRank rm := by rw [hfrank, hrank]
          have h2 : m'.roblox_username = some rm.username := by rw [hfun, hun]
          rw [h1, h2]
        rw [hstep st hsm]
        have heq' : MembersEqMod (st.members.set i
            (updateExistingMember m' rm (sysRank rm) false now).member) DB1 := by
          apply membersEqMod_set heq
          rw [hdb1]
          simp [hm4]
        obtain ⟨z1, z2, z3⟩ := ih
          { members := st.members.set i
              (updateExistingMember m' rm (sysRank rm) false now).member
            promotions := st.promotions ++
              (updateExistingMember m' rm (sysRank rm) false now).promotions
            next_id := st.next_id
            stats := { st.stats with
              eligible_roblox_members := st.stats.eligible_roblox_members + 1
              ranks_changed := st.stats.ranks_changed +
                (if (updateExistingMember m' rm (sysRank rm) false now).rank_changed then 1 else 0)
              members_updated := st.stats.members_updated +
                (if (updateExistingMember m' rm (sysRank rm) false now).changed then 1 else 0) } }
          (fun rm' h' he' => hsync rm' (List.mem_cons_of_mem rm h') he') heq'
        rw [z1, z2, z3]
        simp [hchanged, hrankch]
    · simp only [Bool.not_eq_true] at helig
      have heligm : isEligibleRank (mapRobloxRankToSystem rm.role_name) = false := helig
      have hstep : ∀ s : SyncerState, processRobloxMember L2 false now s rm =
          { s with stats := { s.stats with
              members_skipped := s.stats.members_skipped + 1 } } := by
        intro s
        unfold processRobloxMember
        simp [heligm]
      rw [hstep st]
      obtain ⟨z1, z2, z3⟩ := ih
        { st with stats := { st.stats with
            members_skipped := st.stats.members_skipped + 1 } }
        (fun rm' h' he' => hsync rm' (List.mem_cons_of_mem rm h') he') heq
      exact ⟨z1, z2, z3⟩

/-- A `sync_all_members` run on a table already synchronized with the roster
adds nothing, updates nothing, and changes no rank. -/
theorem syncAllMembers_zero_of_synced (roster : List RobloxMember) (db1 : DBState)
    (now : Nat) (hsync : Synced roster db1.members) :
    (syncAllMembers roster db1 false now).1.members_added = 0 ∧
    (syncAllMembers roster db1 false now).1.members_updated = 0 ∧
    (syncAllMembers roster db1 false now).1.ranks_changed = 0 := by
  unfold syncAllMembers
  by_cases hemp : roster.isEmpty = true
  · simp [hemp]
  · simp only [hemp, Bool.false_eq_true, if_false]
    exact foldSecondRun (dbUsernameIndex db1.members) db1.members now roster _
      (fun rm hrm he => hsync rm hrm he) rfl

/-- Distinct primary keys give injective indexing. -/
theorem id_index_inj {M0 : List Member} (hids : (M0.map (·.id)).Nodup)
    {i j : Nat} {mi mj : Member} (hi : M0[i]? = some mi) (hj : M0[j]? = some mj)
    (hid : mi.id = mj.id) : i = j := by
  have h1 : (M0.map (·.id))[i]? = some mi.id := by
    rw [List.getElem?_map, hi]
    rfl
  have h2 : (M0.map (·.id))[j]? = some mj.id := by
    rw [List.getElem?_map, hj]
    rfl
  have hlt : i < (M0.map (·.id)).length := getElem?_some_lt h1
  exact List.getElem?_inj hlt hids (h1.trans (by rw [hid, h2.symm]))

theorem promosAfter_eq_filterMap (L : String → Option Nat)
    (p : List RobloxMember) (M0 : List Member) :
    promosAfter L p M0 = p.filterMap (promoStep L M0) := rfl

/-- One step of `promosAfter`, keeping the tail folded. -/
theorem promosAfter_cons (L : String → Option Nat) (rm : RobloxMember)
    (rest : List RobloxMember) (M0 : List Member) :
    promosAfter L (rm :: rest) M0 =
      (match promoStep L M0 rm with
       | none => promosAfter L rest M0
       | some q => q :: promosAfter L rest M0) := by
  rw [promosAfter_eq_filterMap L (rm :: rest) M0, List.filterMap_cons]
  cases promoStep L M0 rm with
  | none => rw [promosAfter_eq_filterMap L rest M0]
  | some q => rw [promosAfter_eq_filterMap L rest M0]

/-- When no processed roster member targets index `i`, the promotion rows
mention the member at `i` not at all. -/
theorem promosAfter_filter_nil {L : String → Option Nat} {M0 : List Member}
    (hids : (M0.map (·.id)).Nodup) {i : Nat} {m : Member} (hm : M0[i]? = some m) :
    ∀ {p : List RobloxMember}, (∀ rm' ∈ p, matchesIdx L i rm' = false) →
      (promosAfter L p M0).filter (fun q => q.member_id == m.id) = [] := by
  intro p
  induction p with
  | nil => intro _; rfl
  | cons rm rest ih =>
    intro hnone
    have hrest : ∀ rm' ∈ rest, matchesIdx L i rm' = false :=
      fun rm' h' => hnone rm' (List.mem_cons_of_mem rm h')
    rw [promosAfter_cons]
    by_cases helig : isEligibleRank (sysRank rm) = true
    · simp only [promoStep, helig, if_true]
      cases hli : L (rmKey rm) with
      | none => exact ih hrest
      | some i' =>
        cases hgi' : M0[i']? with
        | none => simp only [hgi', Option.bind]; exact ih hrest
        | some m' =>
          simp only [hgi', Option.bind]
          by_cases hr : (m'.current_rank == sysRank rm) = true
          · simp only [hr, if_true]
            exact ih hrest
          · simp only [Bool.not_eq_true] at hr
            simp only [hr, Bool.false_eq_true, if_false]
            rw [List.filter_cons]
            have hne : (m'.id == m.id) = false := by
              apply beq_eq_false_iff_ne.mpr
              intro hc
              have : i' = i := id_index_inj hids hgi' hm hc
              subst this
              have := hnone rm (by simp)
              unfold matchesIdx at this
              rw [helig, hli] at this
              simp at this
            simp only [promoEntry, hne, Bool.false_eq_true, if_false]
            exact ih hrest
    · simp only [Bool.not_eq_true] at helig
      simp only [promoStep, helig, Bool.false_eq_true, if_false]
      exact ih hrest

/-- Filtering the promotion rows of a wet pass down to one member: exactly the
record of the unique roster member that updates its index, when the rank
actually changed there. -/
theorem promosAfter_filter {L : String → Option Nat} {M0 : List Member}
    (HL : ∀ k i, L k = some i → ∃ mm, M0[i]? = some mm ∧ activeUnameMatch mm k = true)
    (hids : (M0.map (·.id)).Nodup) {i : Nat} {m : Member} (hm : M0[i]? = some m) :
    ∀ {p : List RobloxMember}, (p.map rmKey).Nodup →
      (promosAfter L p M0).filter (fun q => q.member_id == m.id) =
        (match p.find? (matchesIdx L i) with
         | some rm => if m.current_rank = sysRank rm then []
                      else [promoEntry m.id m.current_rank (sysRank rm)]
         | none => []) := by
  intro p
  induction p with
  | nil => intro _; rfl
  | cons rm rest ih =>
    intro hnd
    have hndr : (rest.map rmKey).Nodup := (List.nodup_cons.mp (by simpa using hnd)).2
    have hkeynot : rmKey rm ∉ rest.map rmKey := (List.nodup_cons.mp (by simpa using hnd)).1
    rw [List.find?]
    cases hpm : matchesIdx L i rm with
    | true =>
      have hdecomp := hpm
      unfold matchesIdx at hdecomp
      obtain ⟨helig, hbeq⟩ := Bool.and_eq_true_iff.mp hdecomp
      have hli : L (rmKey rm) = some i := by simpa using hbeq
      have hrestnone : ∀ rm' ∈ rest, matchesIdx L i rm' = false := by
        intro rm' h'
        by_contra hc
        rw [Bool.not_eq_false] at hc
        unfold matchesIdx at hc
        obtain ⟨_, hb'⟩ := Bool.and_eq_true_iff.mp hc
        have hli' : L (rmKey rm') = some i := by simpa using hb'
        obtain ⟨mm, hmm, hma⟩ := HL _ _ hli
        obtain ⟨mm', hmm', hma'⟩ := HL _ _ hli'
        rw [hmm] at hmm'
        cases hmm'
        have e1 : unameLower mm = rmKey rm := by
          have hh := hma
          simp only [activeUnameMatch, Bool.and_eq_true_iff, beq_iff_eq] at hh
          exact hh.2
        have e2 : unameLower mm = rmKey rm' := by
          have hh := hma'
          simp only [activeUnameMatch, Bool.and_eq_true_iff, beq_iff_eq] at hh
          exact hh.2
        exact hkeynot (List.mem_map.mpr ⟨rm', h', by rw [← e2, e1]⟩)
      rw [promosAfter_cons]
      simp only [promoStep, helig, if_true, hli, hm]
      by_cases hr : (m.current_rank == sysRank rm) = true
      · simp only [hr, if_true, Option.bind]
        have hreq : m.current_rank = sysRank rm := by simpa using hr
        rw [if_pos hreq]
        exact promosAfter_filter_nil hids hm hrestnone
      · simp only [Bool.not_eq_true] at hr
        simp only [hr, Bool.false_eq_true, if_false, Option.bind]
        have hrne : ¬ m.current_rank = sysRank rm := by
          intro hc
          rw [hc] at hr
          simp at hr
        rw [if_neg hrne, List.filter_cons]
        have hbid : (m.id == m.id) = true := by simp
        simp only [promoEntry, hbid, if_true]
        rw [promosAfter_filter_nil hids hm hrestnone]
    | false =>
      rw [promosAfter_cons]
      by_cases helig : isEligibleRank (sysRank rm) = true
      · simp only [promoStep, helig, if_true]
        cases hli : L (rmKey rm) with
        | none => exact ih hndr
        | some i' =>
          have hii' : i' ≠ i := by
            intro hc
            subst hc
            unfold matchesIdx at hpm
            rw [helig, hli] at hpm
            simp at hpm
          cases hgi' : M0[i']? with
          | none => simp only [hgi', Option.bind]; exact ih hndr
          | some m' =>
            simp only [hgi', Option.bind]
            by_cases hr : (m'.current_rank == sysRank rm) = true
            · simp only [hr, if_true]
              exact ih hndr
            · simp only [Bool.not_eq_true] at hr
              simp only [hr, Bool.false_eq_true, if_false]
              rw [List.filter_cons]
              have hne : (m'.id == m.id) = false := by
                apply beq_eq_false_iff_ne.mpr
                intro hc
                exact hii' (id_index_inj hids hgi' hm hc)
              simp only [promoEntry, hne, Bool.false_eq_true, if_false]
              exact ih hndr
      · simp only [Bool.not_eq_true] at helig
        simp only [promoStep, helig, Bool.false_eq_true, if_false]
        exact ih hndr

/-! ## C2 — idempotence of the second run -/

/-- C2 counterexample. Running `sync_from_roblox` twice on the same one-member
roster: the second run reports `updated = 1` (every matched member is counted
as updated even when nothing changes), not zero. -/
theorem secondRunCountsUpdated_cex :
    (syncFromRoblox [exRM 1 "ana" "Aspirant"] [] []
        (syncFromRoblox [exRM 1 "ana" "Aspirant"] [] [] (exDB [] 1) 3).2 4).1 =
      some { added := 0, updated := 1, rank_changes := 0, errors := 0 } ∧
    ((syncFromRoblox [exRM 1 "ana" "Aspirant"] [] []
        (syncFromRoblox [exRM 1 "ana" "Aspirant"] [] [] (exDB [] 1) 3).2 4).1).map
      (·.updated) ≠ some 0 := by
  constructor <;> decide

/-- C2 (amended): for `MemberSyncer.sync_all_members` the idempotence law
holds — with a roster whose lowercased usernames are pairwise distinct and
nonempty, a second wet run right after a first one reports zero
`members_added`, zero `members_updated` and zero `ranks_changed`.
`sync_from_roblox` does not satisfy the `updated = 0` part (see the
counterexample): it counts every matched member as updated on every run. -/
theorem syncIdempotent_amended (roster : List RobloxMember) (db : DBState)
    (now1 now2 : Nat) (hnd : (roster.map rmKey).Nodup)
    (hnm : ∀ rm ∈ roster, rm.username ≠ "") :
    (syncAllMembers roster (syncAllMembers roster db false now1).2 false now2).1.members_added = 0 ∧
    (syncAllMembers roster (syncAllMembers roster db false now1).2 false now2).1.members_updated = 0 ∧
    (syncAllMembers roster (syncAllMembers roster db false now1).2 false now2).1.ranks_changed = 0 :=
  syncAllMembers_zero_of_synced roster (syncAllMembers roster db false now1).2 now2
    (syncAllMembers_establishes_synced roster db now1 hnd hnm)

/-- C2 witness: the amended theorem on a concrete roster and an initially
empty database. -/
theorem syncIdempotent_amended_witness :
    (syncAllMembers [exRM 7 "Ana" "Novice"]
      (syncAllMembers [exRM 7 "Ana" "Novice"] (exDB [] 1) false 3).2 false 4).1.members_added = 0 ∧
    (syncAllMembers [exRM 7 "Ana" "Novice"]
      (syncAllMembers [exRM 7 "Ana" "Novice"] (exDB [] 1) false 3).2 false 4).1.members_updated = 0 ∧
    (syncAllMembers [exRM 7 "Ana" "Novice"]
      (syncAllMembers [exRM 7 "Ana" "Novice"] (exDB [] 1) false 3).2 false 4).1.ranks_changed = 0 :=
  syncIdempotent_amended [exRM 7 "Ana" "Novice"] (exDB [] 1) 3 4 (by decide)
    (by intro rm hrm; simp at hrm; subst hrm; decide)

/-! ## C6 — dry-run purity -/

/-- C6 counterexample. With a roster containing the same user twice, the dry
run reports `members_updated = 2, ranks_changed = 2` while the wet run reports
`1, 1` (the first wet update makes the second iteration a no-change): the two
runs do not return equal statistics on the same inputs. -/
theorem dryRunStatsDiffer_cex :
    (syncAllMembers [exRM 7 "Ana" "Novice", exRM 7 "Ana" "Novice"]
        (exDB [exLM 1 "ana" (some "Ana") (some "7") "Aspirant"] 2) true 9).1 ≠
      (syncAllMembers [exRM 7 "Ana" "Novice", exRM 7 "Ana" "Novice"]
        (exDB [exLM 1 "ana" (some "Ana") (some "7") "Aspirant"] 2) false 9).1 := by
  decide

/-- C6 (amended): provided the roster contains no two entries with the same
lowercased username, `sync_all_members(dry_run=True)` returns exactly the
statistics of the wet run on the same inputs; and — unconditionally — a dry
run commits zero storage mutations: the member table, the promotion log and
the id counter are exactly as before. -/
theorem dryRunPurity_amended :
    ∀ (roster : List RobloxMember) (db : DBState) (now : Nat),
      (roster.map (fun rm => strLower rm.username)).Nodup →
      (syncAllMembers roster db true now).1 = (syncAllMembers roster db false now).1 ∧
      (syncAllMembers roster db true now).2 = db := by
  intro roster db now hnd
  refine ⟨?_, syncAllMembers_dry_state roster db now⟩
  unfold syncAllMembers
  by_cases hemp : roster.isEmpty = true
  · simp only [hemp, if_true]
  · simp only [hemp, Bool.false_eq_true, if_false]
    exact (foldStats_dry_wet (dbUsernameIndex db.members) db.members
      (fun k i h => dbUsernameIndex_spec h) now now roster _ _ hnd rfl rfl
      (fun _ _ _ _ => rfl)).symm

/-- C6 witness: the amended theorem at a concrete roster with distinct
usernames. -/
theorem dryRunPurity_amended_witness :
    (syncAllMembers [exRM 7 "Ana" "Novice"]
        (exDB [exLM 1 "ana" (some "Ana") (some "7") "Aspirant"] 2) true 9).1 =
      (syncAllMembers [exRM 7 "Ana" "Novice"]
        (exDB [exLM 1 "ana" (some "Ana") (some "7") "Aspirant"] 2) false 9).1 ∧
    (syncAllMembers [exRM 7 "Ana" "Novice"]
        (exDB [exLM 1 "ana" (some "Ana") (some "7") "Aspirant"] 2) true 9).2 =
      exDB [exLM 1 "ana" (some "Ana") (some "7") "Aspirant"] 2 :=
  dryRunPurity_amended [exRM 7 "Ana" "Novice"]
    (exDB [exLM 1 "ana" (some "Ana") (some "7") "Aspirant"] 2) 9 (by decide)

/-! ## C1 — "no false departures" -/

/-- C1 counterexample. A local member (`roblox_id = "5"`, active) absent from
the fetched roster: the `sync_from_roblox` reconciliation pass itself sets its
`is_active` field to `False` (and refreshes `last_updated`) — the member is
deactivated, not merely reported. -/
theorem departedMemberDeactivated_cex :
    (exLM 1 "cleo" (some "cleo") (some "5") "Commander").is_active = true ∧
    ((syncFromRoblox [exRM 1 "ana" "Aspirant"] [] []
        (exDB [exLM 1 "cleo" (some "cleo") (some "5") "Commander"] 2) 7).2.members[0]?).map
      (·.is_active) = some false := by
  exact ⟨rfl, by decide⟩

/-- C1 (amended): `MemberSyncer`'s pass never deactivates or deletes a local
member absent from the roster — every field is unchanged and (when active with
a truthy remote username) the member is merely reported by
`_check_inactive_members`. `sync_from_roblox`, however, deactivates: an
active member matching no roster entry on any identity key and holding a
truthy `roblox_id` comes out with `is_active = False` and a refreshed
`last_updated` (all other fields unchanged, and the row is never deleted);
absent members without a truthy `roblox_id` are left completely unchanged. -/
theorem noFalseDepartures_amended :
    (∀ (roster : List RobloxMember) (db : DBState) (d : Bool) (now : Nat)
       (i : Nat) (m : Member),
      db.members[i]? = some m →
      (∀ rm ∈ roster, activeUnameMatch m (strLower rm.username) = false) →
      (syncAllMembers roster db d now).2.members[i]? = some m ∧
      (m.is_active = true → strTruthy m.roblox_username = true →
        m ∈ checkInactiveMembers roster (db.members.filter (·.is_active)))) ∧
    (∀ (roster : List RobloxMember) (roles : List RobloxRole)
       (maps : List RankMapping) (db : DBState) (now : Nat) (i : Nat) (m : Member),
      roster ≠ [] →
      db.members[i]? = some m →
      (∀ rm ∈ roster, m.roblox_id ≠ some (toString rm.user_id) ∧
        m.roblox_username ≠ some rm.username ∧ m.discord_username ≠ rm.username) →
      (syncFromRoblox roster roles maps db now).2.members[i]? =
        some (if m.is_active && strTruthy m.roblox_id then
                { m with is_active := false, last_updated := now }
              else m)) := by
  constructor
  · intro roster db d now i m hget habs
    have hnot : ∀ rm ∈ roster, ∀ j,
        dbUsernameIndex db.members (strLower rm.username) = some j → j ≠ i := by
      intro rm hrm j hj hji
      subst hji
      obtain ⟨m', hg', hmatch⟩ := dbUsernameIndex_spec hj
      rw [hget] at hg'
      cases hg'
      rw [habs rm hrm] at hmatch
      cases hmatch
    constructor
    · unfold syncAllMembers
      by_cases hemp : roster.isEmpty = true
      · simp only [hemp, if_true]
        exact hget
      · simp only [hemp, Bool.false_eq_true, if_false]
        exact foldRobloxMembers_preserves hget (fun rm hrm j hj => hnot rm hrm j hj)
    · intro hact htru
      unfold checkInactiveMembers
      apply List.mem_filter.mpr
      refine ⟨List.mem_filter.mpr ⟨List.getElem?_mem hget, hact⟩, ?_⟩
      rw [htru]
      simp only [Bool.true_and, Bool.not_eq_eq_eq_not, Bool.not_true]
      apply List.any_eq_false.mpr
      intro rm hrm
      have := habs rm hrm
      rw [activeUnameMatch, hact, htru] at this
      simp only [Bool.true_and] at this
      rw [Bool.beq_comm] at this
      simp [this]
  · intro roster roles maps db now i m hne hget habs
    unfold syncFromRoblox
    have hemp : roster.isEmpty = false := by simp [hne]
    simp only [hemp, Bool.false_eq_true, if_false]
    have hfold := @foldSyncMembers_preserves maps roles now i m roster
      { members := db.members, promotions := db.promotions, next_id := db.next_id
        stats := { added := 0, updated := 0, rank_changes := 0, errors := 0 } } hget habs
    simp only [deactivateDeparted, List.getElem?_map, hfold, Option.map_some']
    by_cases hact : (m.is_active && strTruthy m.roblox_id) = true
    · obtain ⟨ha, ht⟩ := Bool.and_eq_true_iff.mp hact
      cases hrid : m.roblox_id with
      | none => rw [hrid] at ht; cases ht
      | some s =>
        have hnm : s ∉ roster.map (fun x => toString x.user_id) := by
          intro hc
          obtain ⟨rm, hrm, hx⟩ := List.mem_map.mp hc
          exact (habs rm hrm).1 (by rw [hrid, hx])
        rw [hrid] at ht
        rw [ha]
        simp [ht, hnm]
    · simp only [Bool.not_eq_true] at hact
      rw [hact]
      simp only [Bool.false_eq_true, if_false, Option.some.injEq]
      rcases Bool.and_eq_false_iff.mp hact with h | h <;> simp [h]

/-- C1 witness: a member with no remote username is untouched and unreported
by `sync_all_members`, and the `sync_from_roblox` conclusion instantiated on
the deactivation fixture. -/
theorem noFalseDepartures_amended_witness :
    (syncAllMembers [exRM 1 "ana" "Aspirant"]
        (exDB [exLM 1 "cleo" (some "cleo") (some "5") "Commander"] 2) false 7).2.members[0]? =
      some (exLM 1 "cleo" (some "cleo") (some "5") "Commander") ∧
    (syncFromRoblox [exRM 1 "ana" "Aspirant"] [] []
        (exDB [exLM 1 "cleo" (some "cleo") (some "5") "Commander"] 2) 7).2.members[0]? =
      some { exLM 1 "cleo" (some "cleo") (some "5") "Commander" with
             is_active := false, last_updated := 7 } :=
  ⟨(noFalseDepartures_amended.1 [exRM 1 "ana" "Aspirant"]
      (exDB [exLM 1 "cleo" (some "cleo") (some "5") "Commander"] 2) false 7 0
      (exLM 1 "cleo" (some "cleo") (some "5") "Commander") rfl (by decide)).1,
   by
    have h := noFalseDepartures_amended.2 [exRM 1 "ana" "Aspirant"] [] []
      (exDB [exLM 1 "cleo" (some "cleo") (some "5") "Commander"] 2) 7 0
      (exLM 1 "cleo" (some "cleo") (some "5") "Commander") (by decide) rfl (by decide)
    simpa using h⟩

/-! ## C4 — the eligibility filter -/

/-- C4 counterexample. A remote member whose translated rank (`"Weirdo"`,
passed through unmapped) is outside the eligible hierarchy, but who matches an
existing local member by `roblox_id`, makes `sync_from_roblox` mutate storage:
the member's rank becomes `"Weirdo"`, a promotion row is written, and the
member is counted in `updated`/`rank_changes` — there is no skipped statistic
at all. -/
theorem ineligibleMatchedUpdated_cex :
    eligibleRanks.contains (resolveSystemRank [] [] "Weirdo") = false ∧
    (syncFromRoblox [exRM 5 "bob" "Weirdo"] [] []
        (exDB [exLM 1 "bob" (some "bob") (some "5") "Aspirant"] 2) 9).1 =
      some { added := 0, updated := 1, rank_changes := 1, errors := 0 } ∧
    ((syncFromRoblox [exRM 5 "bob" "Weirdo"] [] []
        (exDB [exLM 1 "bob" (some "bob") (some "5") "Aspirant"] 2) 9).2.members[0]?).map
      (·.current_rank) = some "Weirdo" ∧
    (syncFromRoblox [exRM 5 "bob" "Weirdo"] [] []
        (exDB [exLM 1 "bob" (some "bob") (some "5") "Aspirant"] 2) 9).2.promotions =
      [promoEntry 1 "Aspirant" "Weirdo"] := by
  refine ⟨rfl, ?_, ?_, ?_⟩ <;> decide

/-- C4 (amended): in `MemberSyncer.sync_all_members` an ineligible remote
member causes no storage mutation and is counted only in `members_skipped`.
In `sync_from_roblox` eligibility is enforced only for members that match no
local row (such members cause no mutation and no statistic at all — there is
no skipped counter); matched members are updated regardless of eligibility. -/
theorem eligibilityFilter_amended :
    (∀ (lookup : String → Option Nat) (d : Bool) (now : Nat) (st : SyncerState)
       (rm : RobloxMember),
      isEligibleRank (mapRobloxRankToSystem rm.role_name) = false →
      processRobloxMember lookup d now st rm =
        { st with stats := { st.stats with members_skipped := st.stats.members_skipped + 1 } }) ∧
    (∀ (maps : List RankMapping) (roles : List RobloxRole) (now : Nat)
       (st : SyncFState) (rm : RobloxMember),
      findMemberIdx st.members rm = none →
      eligibleRanks.contains (resolveSystemRank maps roles rm.role_name) = false →
      processSyncMember maps roles now st rm = st) := by
  constructor
  · intro lookup d now st rm h
    simp [processRobloxMember, h]
  · intro maps roles now st rm hfind helig
    have hnm : resolveSystemRank maps roles rm.role_name ∉ eligibleRanks := by
      simpa using helig
    simp [processSyncMember, hfind, hnm]

/-- C4 witness: a `"Weirdo"`-ranked remote member is skipped by
`sync_all_members` processing and ignored by `sync_from_roblox` processing
when unmatched. -/
theorem eligibilityFilter_amended_witness :
    processRobloxMember (fun _ => none) false 0 exSyncerState (exRM 9 "zed" "Weirdo") =
      { exSyncerState with stats :=
        { exSyncerState.stats with members_skipped := exSyncerState.stats.members_skipped + 1 } } ∧
    processSyncMember [] [] 0 exSyncFState (exRM 9 "zed" "Weirdo") = exSyncFState :=
  ⟨eligibilityFilter_amended.1 (fun _ => none) false 0 exSyncerState (exRM 9 "zed" "Weirdo")
      (by decide),
   eligibilityFilter_amended.2 [] [] 0 exSyncFState (exRM 9 "zed" "Weirdo")
      (by decide) (by decide)⟩

/-! ## C3 — the collision guard -/

/-- C3 counterexample. A local member with `roblox_id = "99"` matched by
username to a remote member with id 5: `MemberSyncer.sync_all_members` has no
collision guard — the member's rank is changed, a `PromotionLog` row is
written, and the event is counted as a normal update. -/
theorem collisionUpdatedAnyway_cex :
    (syncAllMembers [exRM 5 "Ana" "Novice"]
        (exDB [exLM 1 "cleo" (some "Ana") (some "99") "Aspirant"] 2) false 9).1.members_updated = 1 ∧
    (syncAllMembers [exRM 5 "Ana" "Novice"]
        (exDB [exLM 1 "cleo" (some "Ana") (some "99") "Aspirant"] 2) false 9).1.ranks_changed = 1 ∧
    (syncAllMembers [exRM 5 "Ana" "Novice"]
        (exDB [exLM 1 "cleo" (some "Ana") (some "99") "Aspirant"] 2) false 9).2.promotions =
      [promoEntry 1 "Aspirant" "Novice"] ∧
    ((syncAllMembers [exRM 5 "Ana" "Novice"]
        (exDB [exLM 1 "cleo" (some "Ana") (some "99") "Aspirant"] 2) false 9).2.members[0]?).map
      (·.current_rank) = some "Novice" := by
  refine ⟨?_, ?_, ?_, ?_⟩ <;> decide

/-- C3 (amended): the collision guard exists only in `sync_from_roblox`,
where a matched member with a different truthy `roblox_id` is left completely
untouched (no field change, no record, no statistic — the event is only
logged). In `MemberSyncer.sync_all_members` the same situation is processed as
a normal update: the rank is changed with a `PromotionLog` row and counted in
`members_updated`/`ranks_changed`; only the differing `roblox_id` itself is
never overwritten. -/
theorem collisionGuard_amended :
    (∀ (maps : List RankMapping) (roles : List RobloxRole) (now : Nat)
       (st : SyncFState) (rm : RobloxMember) (i : Nat) (member : Member),
      findMemberIdx st.members rm = some i →
      st.members[i]? = some member →
      strTruthy member.roblox_id = true →
      member.roblox_id ≠ some (toString rm.user_id) →
      processSyncMember maps roles now st rm = st) ∧
    (∀ (L : String → Option Nat) (now : Nat) (st : SyncerState) (rm : RobloxMember)
       (i : Nat) (m : Member),
      isEligibleRank (mapRobloxRankToSystem rm.role_name) = true →
      L (strLower rm.username) = some i →
      st.members[i]? = some m →
      strTruthy m.roblox_id = true →
      m.roblox_id ≠ some (toString rm.user_id) →
      m.current_rank ≠ mapRobloxRankToSystem rm.role_name →
      ((processRobloxMember L false now st rm).members[i]?).map (·.current_rank) =
        some (mapRobloxRankToSystem rm.role_name) ∧
      ((processRobloxMember L false now st rm).members[i]?).map (·.roblox_id) =
        some m.roblox_id ∧
      (processRobloxMember L false now st rm).promotions =
        st.promotions ++ [promoEntry m.id m.current_rank (mapRobloxRankToSystem rm.role_name)] ∧
      (processRobloxMember L false now st rm).stats.members_updated =
        st.stats.members_updated + 1 ∧
      (processRobloxMember L false now st rm).stats.ranks_changed =
        st.stats.ranks_changed + 1) := by
  constructor
  · intro maps roles now st rm i member hfind hget htr hne
    have hbeq : (member.roblox_id == some (toString rm.user_id)) = false :=
      beq_eq_false_iff_ne.mpr hne
    simp [processSyncMember, hfind, hget, htr, hbeq]
  · intro L now st rm i m helig hl hget htr hne hrk
    have hbeqrk : (m.current_rank == mapRobloxRankToSystem rm.role_name) = false :=
      beq_eq_false_iff_ne.mpr hrk
    have hlt : i < st.members.length := getElem?_some_lt hget
    have hset : ∀ a : Member, (st.members.set i a)[i]? = some a := fun a =>
      List.getElem?_set_eq_of_lt a hlt
    simp only [processRobloxMember, helig, hl, hget, if_true]
    rw [updateExistingMember_member, updateExistingMember_promotions,
        updateExistingMember_rank_changed, updateExistingMember_changed]
    refine ⟨?_, ?_, ?_, ?_, ?_⟩ <;> simp [hset, htr, hbeqrk, hrk]

/-- C3 witness: a member with `roblox_id = "5"` matched by username to a
remote member with id 9 is left untouched by the `sync_from_roblox` loop,
while the `sync_all_members` loop writes a promotion row for the same kind of
collision. -/
theorem collisionGuard_amended_witness :
    processSyncMember [] [] 9 exSyncFState (exRM 9 "cleo" "Novice") = exSyncFState ∧
    (processRobloxMember (fun _ => some 0) false 9 exSyncerState (exRM 9 "x" "Novice")).promotions =
      exSyncerState.promotions ++
        [promoEntry (exLM 1 "cleo" (some "cleo") (some "5") "Commander").id
          (exLM 1 "cleo" (some "cleo") (some "5") "Commander").current_rank
          (mapRobloxRankToSystem "Novice")] :=
  ⟨collisionGuard_amended.1 [] [] 9 exSyncFState (exRM 9 "cleo" "Novice") 0
      (exLM 1 "cleo" (some "cleo") (some "5") "Commander")
      (by decide) (by decide) (by decide) (by decide),
   (collisionGuard_amended.2 (fun _ => some 0) 9 exSyncerState (exRM 9 "x" "Novice") 0
      (exLM 1 "cleo" (some "cleo") (some "5") "Commander")
      (by decide) (by decide) (by decide) (by decide) (by decide) (by decide)).2.2.1⟩


/-! ## C10 — the default-role fallback vocabulary -/

/-- C10: the static fallback table maps the provider default roles `"Guest"`
and `"Member"` to `"Aspirant"` and `"Novice"`, both eligible; consequently a
roster member holding one of these roles is processed as eligible by
`sync_all_members` — the skipped counter is untouched, the eligible counter
increments, and when no local member matches the username the member is
created (counted in `members_added`). -/
theorem defaultRolesEligible_thm :
    mapRobloxRankToSystem "Guest" = "Aspirant" ∧
    mapRobloxRankToSystem "Member" = "Novice" ∧
    isEligibleRank "Aspirant" = true ∧
    isEligibleRank "Novice" = true ∧
    (∀ (lookup : String → Option Nat) (d : Bool) (now : Nat) (st : SyncerState)
       (rm : RobloxMember), rm.role_name = "Guest" ∨ rm.role_name = "Member" →
      (processRobloxMember lookup d now st rm).stats.members_skipped = st.stats.members_skipped ∧
      (processRobloxMember lookup d now st rm).stats.eligible_roblox_members =
        st.stats.eligible_roblox_members + 1 ∧
      (lookup (strLower rm.username) = none →
        (processRobloxMember lookup d now st rm).stats.members_added =
          st.stats.members_added + 1)) := by
  refine ⟨rfl, rfl, rfl, rfl, ?_⟩
  intro lookup d now st rm hrole
  have helig : isEligibleRank (mapRobloxRankToSystem rm.role_name) = true := by
    rcases hrole with h | h <;> rw [h] <;> rfl
  cases hl : lookup (strLower rm.username) with
  | some i =>
    cases hg : st.members[i]? with
    | some m => simp [processRobloxMember, helig, hl, hg]
    | none => simp [processRobloxMember, helig, hl, hg]
  | none => simp [processRobloxMember, helig, hl]

/-- C10 witness: processing a `"Guest"` roster member against an empty lookup
adds a member and skips nothing. -/
theorem defaultRolesEligible_thm_witness :
    (processRobloxMember (fun _ => none) false 0 exSyncerState (exRM 9 "bo" "Guest")).stats.members_skipped =
      exSyncerState.stats.members_skipped ∧
    (processRobloxMember (fun _ => none) false 0 exSyncerState (exRM 9 "bo" "Guest")).stats.members_added =
      exSyncerState.stats.members_added + 1 :=
  ⟨(defaultRolesEligible_thm.2.2.2.2 (fun _ => none) false 0 exSyncerState
      (exRM 9 "bo" "Guest") (Or.inl rfl)).1,
   (defaultRolesEligible_thm.2.2.2.2 (fun _ => none) false 0 exSyncerState
      (exRM 9 "bo" "Guest") (Or.inl rfl)).2.2 rfl⟩


/-! ## C5 — the promotion audit trail -/

/-- For a nonempty roster, `sync_all_members` is the member-loop fold over the
initial loop state. -/
theorem syncAllMembers_of_ne (roster : List RobloxMember) (db : DBState)
    (dry : Bool) (now : Nat) (hne : roster.isEmpty = false) :
    syncAllMembers roster db dry now =
      ((roster.foldl (processRobloxMember (dbUsernameIndex db.members) dry now)
          (initSyncerState roster db)).stats,
       { members := (roster.foldl (processRobloxMember (dbUsernameIndex db.members) dry now)
            (initSyncerState roster db)).members
         promotions := (roster.foldl (processRobloxMember (dbUsernameIndex db.members) dry now)
            (initSyncerState roster db)).promotions
         next_id := (roster.foldl (processRobloxMember (dbUsernameIndex db.members) dry now)
            (initSyncerState roster db)).next_id }) := by
  unfold syncAllMembers initSyncerState
  simp only [hne, Bool.false_eq_true, if_false]

/-- C5 counterexample. With two roster rows carrying the same username (the
roster is keyed by a dict, but the list as processed may repeat a username),
a single member whose rank goes from `"Aspirant"` to `"Adept"` in one
`sync_all_members` pass receives TWO `PromotionLog` rows, and neither row has
`from_rank` equal to the pre-pass rank together with `to_rank` equal to the
post-pass rank. -/
theorem doubleRankChangeTwoRecords_cex :
    ((exDB [exLM 1 "ana" (some "Ana") (some "7") "Aspirant"] 2).members[0]?).map
      (·.current_rank) = some "Aspirant" ∧
    ((syncAllMembers [exRM 7 "Ana" "Novice", exRM 7 "Ana" "Adept"]
        (exDB [exLM 1 "ana" (some "Ana") (some "7") "Aspirant"] 2) false 9).2.members[0]?).map
      (·.current_rank) = some "Adept" ∧
    (syncAllMembers [exRM 7 "Ana" "Novice", exRM 7 "Ana" "Adept"]
        (exDB [exLM 1 "ana" (some "Ana") (some "7") "Aspirant"] 2) false 9).2.promotions =
      [promoEntry 1 "Aspirant" "Novice", promoEntry 1 "Novice" "Adept"] := by
  refine ⟨?_, ?_, ?_⟩ <;> decide

/-- C5 (amended): provided the processed roster carries pairwise-distinct
lower-cased usernames and the member table carries pairwise-distinct ids, a
wet `sync_all_members` pass appends exactly the rows `promosAfter`: a member
whose rank changes gets exactly one row (`from_rank` = pre-pass rank,
`to_rank` = post-pass rank, automatic-sync reason and actor baked into
`promoEntry`), a member whose rank is unchanged gets none, and every appended
row arises from a member whose rank changed. In `sync_from_roblox`, a matched
member that does not hit the collision guard likewise gets exactly one row
exactly when the resolved rank differs. Without the distinctness provisos the
guarantee fails (see the counterexample). -/
theorem promotionAudit_amended (roster : List RobloxMember) (db : DBState) (now : Nat)
    (hnd : (roster.map rmKey).Nodup)
    (hids : (db.members.map (fun m => m.id)).Nodup) :
    (syncAllMembers roster db false now).2.promotions =
      db.promotions ++ promosAfter (dbUsernameIndex db.members) roster db.members ∧
    (∀ (i : Nat) (m m' : Member), db.members[i]? = some m →
      (syncAllMembers roster db false now).2.members[i]? = some m' →
      (m'.current_rank ≠ m.current_rank →
        (promosAfter (dbUsernameIndex db.members) roster db.members).filter
          (fun q => q.member_id == m.id) =
          [promoEntry m.id m.current_rank m'.current_rank]) ∧
      (m'.current_rank = m.current_rank →
        (promosAfter (dbUsernameIndex db.members) roster db.members).filter
          (fun q => q.member_id == m.id) = [])) ∧
    (∀ q ∈ promosAfter (dbUsernameIndex db.members) roster db.members,
      ∃ (i : Nat) (m m' : Member), db.members[i]? = some m ∧
        (syncAllMembers roster db false now).2.members[i]? = some m' ∧
        m'.current_rank ≠ m.current_rank ∧
        q = promoEntry m.id m.current_rank m'.current_rank) ∧
    (∀ (maps : List RankMapping) (roles : List RobloxRole) (now2 : Nat)
        (st : SyncFState) (rm : RobloxMember) (i : Nat) (member : Member),
      findMemberIdx st.members rm = some i →
      st.members[i]? = some member →
      (strTruthy member.roblox_id && !(member.roblox_id == some (toString rm.user_id))) = false →
      (processSyncMember maps roles now2 st rm).promotions =
        st.promotions ++
          (if member.current_rank = resolveSystemRank maps roles rm.role_name then []
           else [promoEntry member.id member.current_rank
                  (resolveSystemRank maps roles rm.role_name)])) := by
  have HL : ∀ k i, dbUsernameIndex db.members k = some i →
      ∃ mm, db.members[i]? = some mm ∧ activeUnameMatch mm k = true :=
    fun k i h => dbUsernameIndex_spec h
  have hsfr : ∀ (maps : List RankMapping) (roles : List RobloxRole) (now2 : Nat)
      (st : SyncFState) (rm : RobloxMember) (i : Nat) (member : Member),
      findMemberIdx st.members rm = some i →
      st.members[i]? = some member →
      (strTruthy member.roblox_id && !(member.roblox_id == some (toString rm.user_id))) = false →
      (processSyncMember maps roles now2 st rm).promotions =
        st.promotions ++
          (if member.current_rank = resolveSystemRank maps roles rm.role_name then []
           else [promoEntry member.id member.current_rank
                  (resolveSystemRank maps roles rm.role_name)]) := by
    intro maps roles now2 st rm i member hfind hget hcoll
    by_cases hrd : member.current_rank = resolveSystemRank maps roles rm.role_name
    · rw [if_pos hrd]
      have hb : (member.current_rank == resolveSystemRank maps roles rm.role_name) = true := by
        simpa using hrd
      simp [processSyncMember, hfind, hget, hcoll, hb]
    · rw [if_neg hrd]
      have hb : (member.current_rank == resolveSystemRank maps roles rm.role_name) = false :=
        beq_eq_false_iff_ne.mpr hrd
      simp [processSyncMember, promoEntry, hfind, hget, hcoll, hb]
  by_cases hemp : roster.isEmpty = true
  · have hros : roster = [] := List.isEmpty_iff.mp hemp
    subst hros
    have hdb : (syncAllMembers ([] : List RobloxMember) db false now).2 = db := rfl
    refine ⟨?_, ?_, ?_, hsfr⟩
    · rw [hdb]
      show db.promotions = db.promotions ++ promosAfter (dbUsernameIndex db.members) [] db.members
      simp [promosAfter]
    · intro i m m' hm hm'
      rw [hdb, hm] at hm'
      have hmm : m = m' := Option.some.inj hm'
      subst hmm
      exact ⟨fun hne => absurd rfl hne, fun _ => rfl⟩
    · intro q hq
      exact absurd hq (by simp [promosAfter])
  · rw [Bool.not_eq_true] at hemp
    obtain ⟨mA, mLen, mDrop, mProm, mNext⟩ :=
      foldWet_master (dbUsernameIndex db.members) db.members HL now roster
        (initSyncerState roster db) rfl hnd
    have hsync := syncAllMembers_of_ne roster db false now hemp
    refine ⟨?_, ?_, ?_, hsfr⟩
    · rw [hsync]
      exact mProm
    · intro i m m' hm hm'
      rw [hsync] at hm'
      dsimp only at hm'
      rw [mA i m hm] at hm'
      have hm'eq : coreVal (dbUsernameIndex db.members) now roster m i = m' :=
        Option.some.inj hm'
      have hfilter := promosAfter_filter HL hids hm hnd
      cases hf : roster.find? (matchesIdx (dbUsernameIndex db.members) i) with
      | some rm =>
        have hrank : m'.current_rank = sysRank rm := by
          rw [← hm'eq]
          unfold coreVal
          simp only [hf]
          rw [updateExistingMember_member]
        simp only [hf] at hfilter
        constructor
        · intro hnerk
          have hne2 : ¬ m.current_rank = sysRank rm :=
            fun hc => hnerk (hrank.trans hc.symm)
          rw [if_neg hne2] at hfilter
          rw [hrank]
          exact hfilter
        · intro heq
          have hpos : m.current_rank = sysRank rm := heq.symm.trans hrank
          rw [if_pos hpos] at hfilter
          exact hfilter
      | none =>
        have hmm : m = m' := by
          rw [← hm'eq]
          unfold coreVal
          simp only [hf]
        subst hmm
        simp only [hf] at hfilter
        exact ⟨fun hne => absurd rfl hne, fun _ => hfilter⟩
    · intro q hq
      rw [promosAfter_eq_filterMap] at hq
      obtain ⟨rm, hrmmem, hstep⟩ := List.mem_filterMap.mp hq
      unfold promoStep at hstep
      by_cases helig : isEligibleRank (sysRank rm) = true
      · simp only [helig, if_true] at hstep
        cases hli : dbUsernameIndex db.members (rmKey rm) with
        | none => rw [hli] at hstep; exact absurd hstep (by simp)
        | some i =>
          simp only [hli] at hstep
          cases hgi : db.members[i]? with
          | none => rw [hgi] at hstep; exact absurd hstep (by simp)
          | some m0 =>
            rw [hgi] at hstep
            simp only [Option.bind] at hstep
            by_cases hr : (m0.current_rank == sysRank rm) = true
            · rw [if_pos hr] at hstep; cases hstep
            · rw [if_neg hr] at hstep
              have hq' : q = promoEntry m0.id m0.current_rank (sysRank rm) :=
                (Option.some.inj hstep).symm
              have hneq : m0.current_rank ≠ sysRank rm := by
                intro hc
                rw [hc] at hr
                simp at hr
              have hmatch : matchesIdx (dbUsernameIndex db.members) i rm = true := by
                unfold matchesIdx
                rw [helig, hli]
                simp
              have hfind : roster.find? (matchesIdx (dbUsernameIndex db.members) i) = some rm := by
                apply find?_eq_some_of_unique hrmmem hmatch
                intro y hy hpy
                unfold matchesIdx at hpy
                obtain ⟨_, h2⟩ := Bool.and_eq_true_iff.mp hpy
                have hly : dbUsernameIndex db.members (rmKey y) = some i := by simpa using h2
                obtain ⟨my, hmy, hmay⟩ := HL _ _ hly
                obtain ⟨mr, hmr, hmar⟩ := HL _ _ hli
                rw [hmr] at hmy
                have heqm : mr = my := Option.some.inj hmy
                have ey : unameLower mr = rmKey y := by
                  rw [heqm]
                  have h := hmay
                  simp only [activeUnameMatch, Bool.and_eq_true_iff, beq_iff_eq] at h
                  exact h.2
                have erm : unameLower mr = rmKey rm := by
                  have h := hmar
                  simp only [activeUnameMatch, Bool.and_eq_true_iff, beq_iff_eq] at h
                  exact h.2
                exact List.inj_on_of_nodup_map hnd hy hrmmem (by rw [← ey, erm])
              have hrankc : (coreVal (dbUsernameIndex db.members) now roster m0 i).current_rank =
                  sysRank rm := by
                unfold coreVal
                simp only [hfind]
                rw [updateExistingMember_member]
              refine ⟨i, m0, coreVal (dbUsernameIndex db.members) now roster m0 i, hgi, ?_, ?_, ?_⟩
              · rw [hsync]
                dsimp only
                exact mA i m0 hgi
              · rw [hrankc]
                exact fun hc => hneq hc.symm
              · rw [hq', hrankc]
      · rw [if_neg helig] at hstep
        cases hstep

/-- C5 witness: one roster row `"Ana"`/`"Adept"` against a single member at
rank `"Aspirant"`: the pass-level audit gives exactly one promotion row for
that member, from `"Aspirant"` to `"Adept"`. -/
theorem promotionAudit_amended_witness :
    (promosAfter (dbUsernameIndex (exDB [exLM 1 "ana" (some "Ana") (some "7") "Aspirant"] 2).members)
        [exRM 7 "Ana" "Adept"] (exDB [exLM 1 "ana" (some "Ana") (some "7") "Aspirant"] 2).members).filter
      (fun q => q.member_id == (exLM 1 "ana" (some "Ana") (some "7") "Aspirant").id) =
      [promoEntry (exLM 1 "ana" (some "Ana") (some "7") "Aspirant").id
        (exLM 1 "ana" (some "Ana") (some "7") "Aspirant").current_rank "Adept"] := by
  have h := (promotionAudit_amended [exRM 7 "Ana" "Adept"]
      (exDB [exLM 1 "ana" (some "Ana") (some "7") "Aspirant"] 2) 9
      (by decide) (by decide)).2.1 0
      (exLM 1 "ana" (some "Ana") (some "7") "Aspirant")
      { id := 1, discord_username := "ana", roblox_username := some "Ana",
        roblox_id := some "7", current_rank := "Adept", join_date := 0,
        last_updated := 9, is_active := true }
      (by decide) (by decide)
  exact h.1 (by decide)


end Taskforce
